import Mathlib

/-!
Verification of the Debate_Agents system specification against a shallow
embedding of its Python sources.

Sources embedded:
- `debate_system.py`  (`DebateSystem.run_debate`)
- `agents/base_agent.py`  (`BaseAgent.generate`, `reset_history`)
- `agents/debate_agents.py`  (`DebateAgent.debate`, `_clean_response`,
  `_verify_and_fix_consistency`, prompt builders)
- `agents/judge_agent.py`  (`JudgeAgent.check_consensus`)
- `debate_tracker.py`  (`DebateTracker.parse_speech`)
- `model_loader.py`  (`QwenModel` singleton)
- `utils.py`  (`export_debate_result`, `chunk_text`)
- `config.py`  (`MAX_DEBATE_ROUNDS`, `CONSENSUS_THRESHOLD` defaults)

The language model, web search and RAG retrieval are opaque oracles in the
source; they are universally quantified parameters here.  The Python `re`
constructs used by the sources are embedded by a small backtracking regex
engine over an AST (`RE`) that covers exactly the constructs the sources
use, with Python priority semantics (greedy / lazy quantifiers, leftmost
match, lookahead, `^`/`$` anchors with and without MULTILINE).
-/

namespace Debate

/-! ## Python string primitives -/

/-- Python whitespace for `str.strip` and the regex class `\s`
(ASCII whitespace plus NBSP and the ideographic space). -/
def isPySpace (c : Char) : Bool :=
  c == ' ' || c == '\t' || c == '\n' || c == '\r' ||
  c == Char.ofNat 11 || c == Char.ofNat 12 ||
  c == Char.ofNat 160 || c == Char.ofNat 0x3000

/-- Remove leading Python whitespace from a character list. -/
def pyStripLeft (s : List Char) : List Char := s.dropWhile isPySpace

/-- Python `str.strip()` on a character list. -/
def pyStripL (s : List Char) : List Char :=
  ((pyStripLeft s).reverse.dropWhile isPySpace).reverse

/-- Python `str.strip()`. -/
def pyStrip (s : String) : String := ⟨pyStripL s.data⟩

/-- Python slice `s[a:b]` for `0 ≤ a ≤ b` (character lists). -/
def extractL (s : List Char) (a b : ℕ) : List Char := (s.take b).drop a

/-- Python `s[:n]`. -/
def pyTake (s : String) (n : ℕ) : String := ⟨s.data.take n⟩

/-- Does `pre` occur at offset `i` of `s`? -/
def litAt (s : List Char) (pre : List Char) (i : ℕ) : Bool :=
  List.isPrefixOf pre (s.drop i)

/-- Python `sub in s` (substring containment), on character lists. -/
def containsSubL (s : List Char) (sub : List Char) : Bool :=
  (List.range (s.length + 1)).any fun i => litAt s sub i

/-- Python `sub in s`. -/
def containsSub (s : String) (sub : String) : Bool := containsSubL s.data sub.data

/-- Scanner for Python `str.split`: the fuel is always at least the length
of the scanned list plus one, so it never runs out for a nonempty separator. -/
def pySplitGo (sep : List Char) : ℕ → List Char → List (List Char)
  | 0, s => [s]
  | fuel + 1, s =>
    match (List.range (s.length + 1)).find? (fun i => litAt s sep i) with
    | none => [s]
    | some i =>
        if sep.length = 0 then [s]
        else s.take i :: pySplitGo sep fuel (s.drop (i + sep.length))

/-- Python `s.split(sep)` for a nonempty separator (character lists). -/
def pySplitL (sep s : List Char) : List (List Char) :=
  pySplitGo sep (s.length + 1) s

/-- Python `s.split(sep)`. -/
def pySplit (s sep : String) : List String :=
  (pySplitL sep.data s.data).map fun l => ⟨l⟩

/-- Python `s.endswith(suffix)`. -/
def pyEndsWith (s suf : String) : Bool :=
  List.isSuffixOf suf.data s.data

/-- Scanner for Python `str.replace`; fuel is at least length plus one. -/
def pyReplaceGo (old new : List Char) : ℕ → List Char → List Char
  | 0, s => s
  | fuel + 1, s =>
    if litAt s old 0 && !(old.length == 0) then
      new ++ pyReplaceGo old new fuel (s.drop old.length)
    else
      match s with
      | [] => []
      | c :: rest => c :: pyReplaceGo old new fuel rest

/-- Python `s.replace(old, new)` for nonempty `old`, on character lists. -/
def pyReplaceL (old new s : List Char) : List Char :=
  pyReplaceGo old new (s.length + 1) s

/-- Python `s.replace(old, new)`. -/
def pyReplace (s old new : String) : String := ⟨pyReplaceL old.data new.data s.data⟩

/-- Python `float()` on a string already filtered to digits and dots:
succeeds iff there is at least one digit and at most one dot. -/
def pyFloatOfDigits (s : List Char) : Option ℚ :=
  if s.any Char.isDigit ∧ (s.filter (fun c => c == '.')).length ≤ 1 then
    let intPart := s.takeWhile (fun c => c != '.')
    let fracPart := (s.dropWhile (fun c => c != '.')).drop 1
    let iv : ℕ := intPart.foldl (fun a c => a * 10 + c.toNat - '0'.toNat) 0
    let fv : ℕ := fracPart.foldl (fun a c => a * 10 + c.toNat - '0'.toNat) 0
    some ((iv : ℚ) + (fv : ℚ) / ((10 : ℚ) ^ fracPart.length))
  else none

/-! ## Regex engine

A backtracking matcher for the fragment of Python `re` the sources use.
All repetition operators in the source patterns repeat single-character
classes, which the AST enforces; alternation, lookahead and one capture
group suffice for every pattern in the repository.  Result lists are in
Python backtracking priority order, so the head of the list is the match
Python would produce. -/

/-- Regex AST: `cls` a single-character class, `lit` a literal sequence,
greedy and lazy star / plus on character classes, an optional character,
alternation of two sequences, lookahead, one capture group, `^` without
MULTILINE (`bos`), and `$` (`eol`, with a MULTILINE flag). -/
inductive RE where
  | cls (p : Char → Bool)
  | lit (cs : List Char)
  | star (p : Char → Bool)
  | starL (p : Char → Bool)
  | plus1 (p : Char → Bool)
  | plusL (p : Char → Bool)
  | opt (p : Char → Bool)
  | alt2 (a b : List RE)
  | look (a : List RE)
  | grp (a : List RE)
  | bos
  | eol (multi : Bool)

/-- Character at index `i` (only consulted under an `i < length` guard). -/
def charAt (s : List Char) (i : ℕ) : Char := s.getD i ' '

/-- Length of the maximal run of characters satisfying `p` from index `i`. -/
def runLen (s : List Char) (p : Char → Bool) (i : ℕ) : ℕ :=
  ((s.drop i).takeWhile p).length

/-- A candidate result: end position and the capture span, if any. -/
abbrev MRes := ℕ × Option (ℕ × ℕ)

mutual

/-- All ways a sequence of items can match starting at `i`, in priority order. -/
def matchSeq (s : List Char) : List RE → ℕ → List MRes
  | [], i => [(i, none)]
  | it :: rest, i =>
      (matchItem s it i).flatMap fun pr =>
        (matchSeq s rest pr.1).map fun qr =>
          (qr.1, pr.2.orElse fun _ => qr.2)

/-- All ways a single item can match starting at `i`, in priority order. -/
def matchItem (s : List Char) : RE → ℕ → List MRes
  | .cls p, i =>
      if i < s.length && p (charAt s i) then [(i + 1, none)] else []
  | .lit cs, i =>
      if litAt s cs i then [(i + cs.length, none)] else []
  | .star p, i =>
      ((List.range (runLen s p i + 1)).reverse).map fun k => (i + k, none)
  | .starL p, i =>
      (List.range (runLen s p i + 1)).map fun k => (i + k, none)
  | .plus1 p, i =>
      ((List.range (runLen s p i)).reverse).map fun k => (i + k + 1, none)
  | .plusL p, i =>
      (List.range (runLen s p i)).map fun k => (i + k + 1, none)
  | .opt p, i =>
      if i < s.length && p (charAt s i) then [(i + 1, none), (i, none)]
      else [(i, none)]
  | .alt2 a b, i => matchSeq s a i ++ matchSeq s b i
  | .look a, i => if (matchSeq s a i).isEmpty then [] else [(i, none)]
  | .grp a, i => (matchSeq s a i).map fun pr => (pr.1, some (i, pr.1))
  | .bos, i => if i = 0 then [(i, none)] else []
  | .eol multi, i =>
      if i = s.length then [(i, none)]
      else if multi then
        (if charAt s i = '\n' then [(i, none)] else [])
      else
        (if i + 1 = s.length && (charAt s i == '\n') then [(i, none)] else [])

end

/-- The match Python produces at position `i`, if any. -/
def reMatchAt (s : List Char) (pat : List RE) (i : ℕ) : Option MRes :=
  (matchSeq s pat i).head?

/-- Leftmost match at or after position `i`: `(start, end, capture)`.
The fuel is at least `s.length + 1 - i` at every call. -/
def reSearchGo (s : List Char) (pat : List RE) : ℕ → ℕ → Option (ℕ × ℕ × Option (ℕ × ℕ))
  | 0, _ => none
  | fuel + 1, i =>
      match reMatchAt s pat i with
      | some (e, c) => some (i, e, c)
      | none => if i < s.length then reSearchGo s pat fuel (i + 1) else none

/-- Leftmost match at or after position `i`. -/
def reSearchFrom (s : List Char) (pat : List RE) (i : ℕ) : Option (ℕ × ℕ × Option (ℕ × ℕ)) :=
  reSearchGo s pat (s.length + 1 - i) i

/-- Python `re.search`, returning the whole matched substring (group 0). -/
def reSearchMatch (pat : List RE) (s : String) : Option String :=
  (reSearchFrom s.data pat 0).map fun r => ⟨extractL s.data r.1 r.2.1⟩

/-- Python `re.search` returning group 1, when the pattern has a group. -/
def reSearchGroup (pat : List RE) (s : List Char) : Option (List Char) :=
  match reSearchFrom s pat 0 with
  | some (_, _, some (a, b)) => some (extractL s a b)
  | _ => none

/-- Python `re.sub(pat, repl, s)` scanner: replace every non-overlapping
leftmost match; after an empty match, copy one character and move on
(Python semantics).  Fuel is at least `s.length + 1`. -/
def reSubGo (s : List Char) (pat : List RE) (repl : List Char) : ℕ → ℕ → List Char
  | 0, i => s.drop i
  | fuel + 1, i =>
      match reSearchFrom s pat i with
      | none => s.drop i
      | some (st, en, _) =>
          extractL s i st ++ repl ++
            (if st < en then reSubGo s pat repl fuel en
             else
               match s.get? en with
               | some c => c :: reSubGo s pat repl fuel (en + 1)
               | none => [])

/-- Python `re.sub(pat, repl, s)`. -/
def reSub (pat : List RE) (repl : String) (s : String) : String :=
  ⟨reSubGo s.data pat repl.data (s.data.length + 1) 0⟩

/-- Python `re.findall` scanner collecting group 1 of each match
(the whole match when the pattern has no group). -/
def reFindallGo (s : List Char) (pat : List RE) : ℕ → ℕ → List (List Char)
  | 0, _ => []
  | fuel + 1, i =>
      match reSearchFrom s pat i with
      | none => []
      | some (st, en, cap) =>
          let item :=
            match cap with
            | some (a, b) => extractL s a b
            | none => extractL s st en
          item ::
            (if st < en then reFindallGo s pat fuel en
             else reFindallGo s pat fuel (en + 1))

/-- Python `re.findall(pat, s)` (group 1 per match). -/
def reFindall (pat : List RE) (s : List Char) : List (List Char) :=
  reFindallGo s pat (s.length + 1) 0

/-- Literal item from a string. -/
def litOf (s : String) : RE := .lit s.data

/-- Case-insensitive literal (for the IGNORECASE patterns). -/
def ciLit (s : String) : List RE :=
  s.data.map fun c => RE.cls fun ch => ch.toLower == c.toLower

/-! ## Character classes used by the source patterns -/

/-- `.` under DOTALL and the class `[\s\S]`. -/
def anyC : Char → Bool := fun _ => true

/-- The newline character class. -/
def nlC : Char → Bool := fun c => c == '\n'

/-- `[^\n]`. -/
def notNl : Char → Bool := fun c => !(c == '\n')

/-- `[：:]`, the full-width or ASCII colon. -/
def colonC : Char → Bool := fun c => c == '：' || c == ':'

/-- Left brace character (written via its code point). -/
def lbraceC : Char := Char.ofNat 123

/-- Right brace character (written via its code point). -/
def rbraceC : Char := Char.ofNat 125

/-- `[^{}]`. -/
def notBrace : Char → Bool := fun c => !(c == lbraceC || c == rbraceC)

/-- The class `[⚠️❌✅⛔]` — Python treats each code point of the emoji
separately, so the warning sign and its variation selector are two members. -/
def warn4C : Char → Bool := fun c =>
  c == Char.ofNat 0x26A0 || c == Char.ofNat 0xFE0F || c == Char.ofNat 0x274C ||
  c == Char.ofNat 0x2705 || c == Char.ofNat 0x26D4

/-- The class `[⚠️❌✅⛔🔴🟢]`. -/
def warn6C : Char → Bool := fun c =>
  warn4C c || c == Char.ofNat 0x1F534 || c == Char.ofNat 0x1F7E2

/-- Membership in the characters of a string (Python character class). -/
def cIn (s : String) : Char → Bool := fun c => s.data.contains c

/-! ## `DebateAgent._clean_response` (agents/debate_agents.py) -/

/-- `\s*\{[^{}]*(?:一致|consistent)[^{}]*\}\s*` with DOTALL and IGNORECASE. -/
def cleanPat1 : List RE :=
  [.star isPySpace, .cls (fun c => c == lbraceC), .star notBrace,
   .alt2 [litOf "一致"] (ciLit "consistent"),
   .star notBrace, .cls (fun c => c == rbraceC), .star isPySpace]

/-- `^\s*json\s*\n?|\n\s*json\s*(?=\n*【)` with IGNORECASE. -/
def cleanPat2 : List RE :=
  [.alt2 ([.bos, .star isPySpace] ++ ciLit "json" ++ [.star isPySpace, .opt nlC])
         ([litOf "\n", .star isPySpace] ++ ciLit "json" ++
          [.star isPySpace, .look [.star nlC, litOf "【"]])]

/-- `\s*[【\(]内部自检[^】\)]*[】\)][^\n]*\n?`. -/
def cleanPat3 : List RE :=
  [.star isPySpace, .cls (fun c => c == '【' || c == '('), litOf "内部自检",
   .star (fun c => !(c == '】' || c == ')')), .cls (fun c => c == '】' || c == ')'),
   .star notNl, .opt nlC]

/-- `\s*【p】[\s\S]*?(?=【|$)` for a judge-output marker `p`. -/
def judgePatOf (p : String) : List RE :=
  [.star isPySpace, litOf ("【" ++ p ++ "】"), .starL anyC,
   .look [.alt2 [litOf "【"] [.eol false]]]

/-- The judge-output markers removed from agent speech. -/
def judgeMarkers : List String :=
  ["裁判反馈", "犀利点评", "逻辑漏洞", "本轮胜负", "共识进展", "下轮要求"]

/-- The `internal_prompts` patterns (MULTILINE). -/
def internalPrompts : List (List RE) :=
  [ [.cls warn6C, .star isPySpace, litOf "结论必须是", .star notNl, .eol true],
    [.cls warn4C, .star isPySpace, .star notNl, litOf "不能得出", .star notNl,
     litOf "结论", .star notNl, .eol true],
    [.cls warn4C, .star isPySpace, .star notNl, litOf "必须支持", .star notNl, .eol true],
    [.cls warn4C, .star isPySpace, litOf "注意", .cls colonC, .star notNl, .eol true],
    [.plus1 nlC, .cls (fun c => c == '-' || c == '•'), .star isPySpace, .cls warn4C,
     .star isPySpace, .plus1 notNl, .eol true] ]

/-- The `meta_patterns` patterns (MULTILINE). -/
def metaPatterns : List (List RE) :=
  [ [.plus1 nlC, litOf "这样修改后", .star notNl, .eol true],
    [.plus1 nlC, litOf "以上", .opt (cIn "是为"), .star notNl, litOf "修改",
     .star notNl, .eol true],
    [.plus1 nlC, litOf "希望", .star notNl, litOf "能", .star notNl, .eol true],
    [.plus1 nlC, litOf "请根据", .star notNl, litOf "进行", .star notNl, .eol true],
    [.star nlC, litOf "通过以上", .cls (cIn "调整修改"), .cls (cIn "，,"),
     .star notNl, .opt (cIn "。."), .star isPySpace, .eol true],
    [.star nlC, litOf "通过上述", .cls (cIn "调整修改论据"), .cls (cIn "，,"),
     .star notNl, .opt (cIn "。."), .star isPySpace, .eol true],
    [.star nlC, litOf "以上", .cls (cIn "论述内容"), .cls (cIn "确保保证"),
     .opt (cIn "了"), .star notNl, .opt (cIn "。."), .star isPySpace, .eol true],
    [.star nlC, litOf "经过", .star (cIn "以上"), .cls (cIn "调整修改"),
     .opt (cIn "，,"), .star notNl, litOf "避免", .star notNl, .opt (cIn "。."),
     .star isPySpace, .eol true],
    [.star nlC, litOf "这样", .star (cIn "就能够可以"), .cls (cIn "确保避免"),
     .star notNl, .opt (cIn "。."), .star isPySpace, .eol true],
    [.star nlC, .star (cIn "综上所述"), .opt (cIn "，,"), .cls (cIn "我我们"),
     .star (cIn "已经对"), .cls (cIn "以上上述"), .cls (cIn "内容论点"),
     .star (cIn "进行了"), .cls (cIn "修改调整"), .star notNl, .opt (cIn "。."),
     .star isPySpace, .eol true] ]

/-- `\n{3,}`, written as three newlines followed by any more. -/
def newlines3Pat : List RE := [litOf "\n\n\n", .star nlC]

/-- `DebateAgent._clean_response`: strip internal self-check JSON, judge-style
sections, leaked prompt lines and meta commentary, collapse blank runs, strip. -/
def cleanResponse (response : String) : String :=
  let c := reSub cleanPat1 "" response
  let c := reSub cleanPat2 "" c
  let c := reSub cleanPat3 "" c
  let c := judgeMarkers.foldl (fun acc p => reSub (judgePatOf p) "" acc) c
  let c := internalPrompts.foldl (fun acc p => reSub p "" acc) c
  let c := metaPatterns.foldl (fun acc p => reSub p "" acc) c
  pyStrip (reSub newlines3Pat "\n\n" c)

/-! ## `DebateTracker.parse_speech` (debate_tracker.py) -/

/-- The result dictionary of `parse_speech`. -/
structure ParsedSpeech where
  round : ℕ
  position : String
  arguments : List String
deriving Repr, DecidableEq

/-- `【我的立场】[：:]\s*(.+?)(?=\n\n|\n【|$)` with DOTALL. -/
def positionPat : List RE :=
  [litOf "【我的立场】", .cls colonC, .star isPySpace, .grp [.plusL anyC],
   .look [.alt2 [litOf "\n\n"] [.alt2 [litOf "\n【"] [.eol false]]]]

/-- `sec[：:]?\s*(.+?)(?=\n【|$)` with DOTALL, for a section marker `sec`. -/
def sectionPatOf (sec : String) : List RE :=
  [litOf sec, .opt colonC, .star isPySpace, .grp [.plusL anyC],
   .look [.alt2 [litOf "\n【"] [.eol false]]]

/-- `\d+[.、]\s*(.+?)(?=\n\d+[.、]|\n【|$)` with DOTALL. -/
def argItemPat : List RE :=
  [.plus1 Char.isDigit, .cls (cIn ".、"), .star isPySpace, .grp [.plusL anyC],
   .look [.alt2 [litOf "\n", .plus1 Char.isDigit, .cls (cIn ".、")]
              [.alt2 [litOf "\n【"] [.eol false]]]]

/-- The two argument section markers scanned by `parse_speech`. -/
def argSections : List String := ["【核心论据】", "【新论据】"]

/-- The argument items `parse_speech` extracts from one section: the numbered
items of the section body, stripped, the empty ones dropped. -/
def argsOfSection (speech : String) (sec : String) : List String :=
  match reSearchGroup (sectionPatOf sec) speech.data with
  | some grp =>
      (((reFindall argItemPat grp).map fun a => pyStrip ⟨a⟩).filter
        fun a => a ≠ "")
  | none => []

/-- `DebateTracker.parse_speech`: extract the position text and the numbered
argument items of a speech. -/
def parseSpeech (speech : String) (roundNum : ℕ) : ParsedSpeech :=
  let position :=
    match reSearchGroup positionPat speech.data with
    | some cap => pyStrip ⟨cap⟩
    | none => ""
  let args :=
    argSections.foldl (fun acc sec =>
      match reSearchGroup (sectionPatOf sec) speech.data with
      | some grp =>
          acc ++ (((reFindall argItemPat grp).map fun a => pyStrip ⟨a⟩).filter
                    fun a => a ≠ "")
      | none => acc) []
  ⟨roundNum, position, args⟩

/-! ## `JudgeAgent.check_consensus` reply parsing (agents/judge_agent.py) -/

/-- The scoring part of `check_consensus`: split after the first `评分`, keep
the first line, filter digit and dot characters, parse as a float, divide by
100 and clamp to `[0, 1]`; any failure (caught by the bare `except`) yields
`0.5`. -/
def consensusScoreOf (response : String) : ℚ :=
  let scoreText? : Option String :=
    if containsSub response "评分" then
      match (pySplit response "评分")[1]? with
      | some seg => (pySplit seg "\n")[0]?
      | none => none
    else some "50"
  match scoreText? with
  | none => 1 / 2
  | some scoreText =>
      match pyFloatOfDigits (scoreText.data.filter fun c => c.isDigit || c == '.') with
      | none => 1 / 2
      | some v => min (1 : ℚ) (max (0 : ℚ) (v / 100))

/-- The full result of parsing a `check_consensus` oracle reply:
`(has_consensus, score, reason)`. -/
def checkConsensusParse (response : String) : Bool × ℚ × String :=
  (containsSub (pyTake response 50) "是", consensusScoreOf response, response)

/-! ## Python values from `json.loads` -/

/-- A Python value as produced by `json.loads`.  `json.loads` itself is the
standard library and is kept as a universally quantified oracle; this type is
the shape of what it can return for a JSON object member. -/
inductive PyVal where
  | bool (b : Bool)
  | int (n : ℤ)
  | float (q : ℚ)
  | str (s : String)
  | list (l : List PyVal)
  | dict (d : List (String × PyVal))
  | nullv

/-- Python truthiness of a JSON-derived value. -/
def pyTruthy : PyVal → Bool
  | .bool b => b
  | .int n => decide (n ≠ 0)
  | .float q => decide (q ≠ 0)
  | .str s => decide (s ≠ "")
  | .list l => !l.isEmpty
  | .dict d => !d.isEmpty
  | .nullv => false

/-- Python `dict.get(key, default)` on an association list. -/
def dictGet (d : List (String × PyVal)) (k : String) (dflt : PyVal) : PyVal :=
  match d.find? (fun kv => kv.1 == k) with
  | some kv => kv.2
  | none => dflt

/-- The single-quote character, used by Python `repr` of strings. -/
def quoteC : Char := Char.ofNat 39

/-- Decimal rendering of a rational for `pyReprFloat` (Python float repr is
approximated; nothing proved depends on this rendering). -/
def reprFloat (q : ℚ) : String :=
  if q.den = 1 then toString q.num ++ ".0"
  else toString q.num ++ "/" ++ toString q.den

mutual

/-- Python `str()` of a JSON-derived value, as interpolated into an f-string. -/
def pyRepr : PyVal → String
  | .bool true => "True"
  | .bool false => "False"
  | .nullv => "None"
  | .int n => toString n
  | .float q => reprFloat q
  | .str s => ⟨[quoteC]⟩ ++ s ++ ⟨[quoteC]⟩
  | .list l => "[" ++ pyReprItems l ++ "]"
  | .dict d => ⟨[lbraceC]⟩ ++ pyReprPairs d ++ ⟨[rbraceC]⟩

/-- Comma-joined `repr` of list items. -/
def pyReprItems : List PyVal → String
  | [] => ""
  | [v] => pyRepr v
  | v :: rest => pyRepr v ++ ", " ++ pyReprItems rest

/-- Comma-joined `repr` of dictionary pairs. -/
def pyReprPairs : List (String × PyVal) → String
  | [] => ""
  | [kv] => ⟨[quoteC]⟩ ++ kv.1 ++ ⟨[quoteC]⟩ ++ ": " ++ pyRepr kv.2
  | kv :: rest =>
      ⟨[quoteC]⟩ ++ kv.1 ++ ⟨[quoteC]⟩ ++ ": " ++ pyRepr kv.2 ++ ", " ++ pyReprPairs rest

end

/-! ## `BaseAgent.generate` and `reset_history` (agents/base_agent.py) -/

/-- One chat message sent to the model. -/
structure ChatMsg where
  role : String
  content : String
deriving Repr, DecidableEq

/-- The mutable part of a `BaseAgent`: its system prompt and dialogue history.
The search and RAG tools are oracles passed to the functions that use them. -/
structure AgentState where
  systemPrompt : String
  history : List ChatMsg
deriving Repr

/-- The user message actually sent to the model: the prompt, prefixed with the
reference-information block when a (truthy) context is present. -/
def buildUserMsg (context prompt : String) : String :=
  if context ≠ "" then "参考信息:\n" ++ context ++ "\n\n" ++ prompt else prompt

/-- The message list `BaseAgent.generate` sends to the model. -/
def generateMessages (st : AgentState) (prompt context : String) : List ChatMsg :=
  ⟨"system", st.systemPrompt⟩ :: (st.history ++ [⟨"user", buildUserMsg context prompt⟩])

/-- `BaseAgent.generate`: send system prompt, history and the (possibly
context-prefixed) user message to the model, then append the bare prompt and
the reply to the history. -/
def baseGenerate (modelGen : List ChatMsg → String) (st : AgentState)
    (prompt : String) (context : String := "") : String × AgentState :=
  let messages := generateMessages st prompt context
  let response := modelGen messages
  (response, { st with history := st.history ++ [⟨"user", prompt⟩, ⟨"assistant", response⟩] })

/-- `BaseAgent.reset_history`. -/
def resetHistory (st : AgentState) : AgentState := { st with history := [] }

/-- Folding a sequence of `(prompt, context)` calls through `baseGenerate`. -/
def foldGenerate (modelGen : List ChatMsg → String) (st : AgentState) :
    List (String × String) → AgentState
  | [] => st
  | (p, c) :: rest => foldGenerate modelGen (baseGenerate modelGen st p c).2 rest

/-! ## Round records and stance configuration -/

/-- One entry of `DebateSystem.debate_history`. -/
structure RoundRecord where
  round : ℕ
  agent_a : String
  agent_b : String
  evaluation : String
deriving Repr, DecidableEq

/-- One entry of `DebateAgent.STANCES`. -/
structure StanceCfg where
  name : String
  role : String
  position : String
  opponent : String
  action : String
  searchKeywords : String
  examples : List String

/-- `STANCES["pro"]`. -/
def proStance : StanceCfg :=
  ⟨"智能体A", "辩论者A - 正方", "正方", "反方", "支持", "优势 好处 支持",
   ["辩题\"是否应该堕胎\" → 你支持堕胎权", "辩题\"AI是否会取代人类\" → 你认为会取代"]⟩

/-- `STANCES["con"]`. -/
def conStance : StanceCfg :=
  ⟨"智能体B", "辩论者B - 反方", "反方", "正方", "反对", "风险 问题 反对",
   ["辩题\"是否应该堕胎\" → 你反对堕胎权", "辩题\"AI是否会取代人类\" → 你认为不会取代"]⟩

/-- Python truthiness of an optional string. -/
def optTruthy : Option String → Bool
  | none => false
  | some s => decide (s ≠ "")

/-- Python truthiness of an optional record list. -/
def histTruthy : Option (List RoundRecord) → Bool
  | none => false
  | some l => !l.isEmpty

/-! ## `DebateAgent._verify_and_fix_consistency` (agents/debate_agents.py) -/

/-- `\{[^{}]*\}` with DOTALL, the JSON-snippet search of the verifier. -/
def jsonSnippetPat : List RE :=
  [.cls (fun c => c == lbraceC), .star notBrace, .cls (fun c => c == rbraceC)]

/-- The per-round history lines of the verification prompt:
`(my_previous, opp_previous)`. -/
def verifyHistoryLines (stancePro : Bool) (debHist : List RoundRecord) : String × String :=
  (debHist.enum.foldl (fun acc ir =>
      let i := ir.1 + 1
      let r := ir.2
      let myV := if stancePro then r.agent_a else r.agent_b
      let opV := if stancePro then r.agent_b else r.agent_a
      (acc.1 ++ "第" ++ toString i ++ "轮我方：" ++ pyTake myV 150 ++ "...\n",
       acc.2 ++ "第" ++ toString i ++ "轮对方：" ++ pyTake opV 150 ++ "...\n"))
    ("", ""))

/-- The JSON template at the end of the verification prompt. -/
def verifyJsonTemplate : String :=
  ⟨[lbraceC]⟩ ++ "\"consistent\": true/false, \"attribution_correct\": true/false, \"problems\": []" ++ ⟨[rbraceC]⟩

/-- The verification prompt of `_verify_and_fix_consistency`. -/
def verifyPromptOf (stancePro : Bool) (topic : String) (cfg : StanceCfg)
    (response : String) (debHist : Option (List RoundRecord)) : String :=
  let prev :=
    if histTruthy debHist then verifyHistoryLines stancePro (debHist.getD [])
    else ("", "")
  "检查以下辩论发言：\n【主题】" ++ topic ++
  "\n【立场】" ++ cfg.position ++ "（必须" ++ cfg.action ++ "）" ++
  "\n【我方历史】" ++ (if prev.1 = "" then "无" else prev.1) ++
  "\n【对方历史】" ++ (if prev.2 = "" then "无" else prev.2) ++
  "\n【发言】" ++ response ++
  "\n\n检查：1.论据是否支持\"" ++ cfg.action ++ "\" 2.是否错误反驳了自己的观点" ++
  "\n返回JSON：" ++ verifyJsonTemplate

/-- One iteration of the `for retry in range(max_retries)` loop of
`_verify_and_fix_consistency`.  In the source every branch of the body ends
in a `return`, so one iteration always produces the final answer: ask the
model to verify, search the reply for a JSON snippet, parse it, and either
keep the response, regenerate it once (when a retry remains, i.e.
`retry < max_retries - 1`), or — on a parse failure, via the bare `except` —
fall back to the response; the returned text is always `_clean_response` of
the kept or regenerated response. -/
def verifyIteration (modelGen : List ChatMsg → String)
    (loads : String → Except Unit (List (String × PyVal)))
    (topic : String) (verifyPrompt : String) (canRetry : Bool)
    (st : AgentState) (response : String) : String × AgentState :=
  let verification := (baseGenerate modelGen st verifyPrompt "").1
  let st1 := (baseGenerate modelGen st verifyPrompt "").2
  match reSearchMatch jsonSnippetPat verification with
  | none => (cleanResponse response, st1)
  | some snippet =>
      match loads snippet with
      | .error _ => (cleanResponse response, st1)
      | .ok result =>
          if pyTruthy (dictGet result "consistent" (.bool true)) &&
             pyTruthy (dictGet result "attribution_correct" (.bool true)) then
            (cleanResponse response, st1)
          else if canRetry then
            let problems := dictGet result "problems" (.list [])
            let fixPrompt :=
              "问题：" ++ pyRepr problems ++ "\n请重新生成发言，主题：" ++ topic
            (cleanResponse (baseGenerate modelGen st1 fixPrompt "").1,
             (baseGenerate modelGen st1 fixPrompt "").2)
          else (cleanResponse response, st1)

/-- The retry loop of `_verify_and_fix_consistency`.  The countdown argument
mirrors `for retry in range(max_retries)` (`retriesLeft + 1` iterations still
available; the base case is the `return` after the loop).  Every branch of the
loop body ends in a `return` in the source, so the successor case never
recurses: the verification reply is requested exactly once. -/
def verifyLoop (modelGen : List ChatMsg → String)
    (loads : String → Except Unit (List (String × PyVal)))
    (topic : String) (verifyPrompt : String) :
    ℕ → AgentState → String → String × AgentState
  | 0, st, response => (cleanResponse response, st)
  | retriesLeft + 1, st, response =>
      verifyIteration modelGen loads topic verifyPrompt (decide (0 < retriesLeft))
        st response

/-- `DebateAgent._verify_and_fix_consistency`. -/
def verifyAndFixConsistency (modelGen : List ChatMsg → String)
    (loads : String → Except Unit (List (String × PyVal)))
    (stancePro : Bool) (topic : String) (cfg : StanceCfg)
    (st : AgentState) (response : String)
    (debHist : Option (List RoundRecord) := none) (maxRetries : ℕ := 2) :
    String × AgentState :=
  verifyLoop modelGen loads topic (verifyPromptOf stancePro topic cfg response debHist)
    maxRetries st response

/-! ## `DebateAgent.debate` and its prompt builders (agents/debate_agents.py) -/

/-- `DebateAgent._build_history_summary`. -/
def buildHistorySummary (stancePro : Bool) (debHist : List RoundRecord) : String :=
  let myName := if stancePro then "正方A" else "反方B"
  let eq50 : String := ⟨List.replicate 50 '='⟩
  let header := "\n" ++ eq50 ++ "\n📜 辩论历史记录 | 你是【" ++ myName ++ "】\n" ++ eq50 ++ "\n"
  debHist.foldl (fun acc r =>
    let myV := if stancePro then r.agent_a else r.agent_b
    let opV := if stancePro then r.agent_b else r.agent_a
    acc ++ "\n第 " ++ toString r.round ++ " 轮:\n" ++
      "🟢【我方】：" ++ pyTake myV 300 ++ "...\n" ++
      "🔴【对方】：" ++ pyTake opV 300 ++ "...\n") header

/-- `DebateAgent._build_opening_prompt`. -/
def buildOpeningPrompt (topic : String) (cfg : StanceCfg) : String :=
  "【辩论主题】" ++ topic ++ "\n\n你是" ++ cfg.position ++ "，你的目标是" ++
  cfg.action ++ "辩题主张。首次发言请按以下格式：\n1. 【我的立场】：明确表态" ++
  cfg.action ++ "辩题主张\n2. 【核心论据】：2-3个支持" ++ cfg.action ++
  "的有力论据（每个论据的结论都必须指向" ++ cfg.action ++
  "）\n3. 【预判并反驳对方可能的论据】：\n   - 对方可能说：「...」\n   - 我的预先反驳：...（结论必须是「所以应该" ++
  cfg.action ++ "辩题」）\n\n⚠️ 重要：你的每一个论据、每一次反驳，结论都必须支持" ++
  cfg.action ++ "！"

/-- The first-rebuttal block of `_build_rebuttal_prompt`. -/
def rebuttalFirstBlock (cfg : StanceCfg) : String :=
  "\n⚠️ 重要提示：对方发言包含两部分，要区别对待！\n" ++
  "┌─────────────────────────────────────────────────────────┐\n" ++
  "│  对方的「核心论据」= 对方真正的观点 → 这是你要反驳的！   │\n" ++
  "│  对方的「预判」= 对方猜测你会说的 → 这不是对方的观点！   │\n" ++
  "├─────────────────────────────────────────────────────────┤\n" ++
  "│  ⭐ 对于对方的预判，你应该默认接受它作为你的观点：       │\n" ++
  "│  ✅ 承认：「没错，我确实认为...」                       │\n" ++
  "│     → 然后给出有力论证，说明为什么这个观点是对的        │\n" ++
  "│     → 并说明这个观点如何支持你" ++ cfg.action ++ "的立场       │\n" ++
  "│                                                         │\n" ++
  "│  ❌ 绝对禁止：把对方的预判当作对方的观点来反驳！        │\n" ++
  "│     → 预判是对方猜你会说的，不是对方自己的主张          │\n" ++
  "└─────────────────────────────────────────────────────────┘\n\n" ++
  "你是" ++ cfg.position ++ "，首次发言请按以下格式：\n" ++
  "1. 【我的立场】：表态" ++ cfg.action ++ "辩题主张\n" ++
  "2. 【核心论据】：2-3个支持" ++ cfg.action ++ "的有力论据\n" ++
  "3. 【反驳对方核心论据】：针对对方的「核心论据」部分进行反驳（结论必须支持" ++ cfg.action ++ "）\n" ++
  "4. 【回应对方的预判】：接受对方的预判作为你的观点，并论证它为何正确、为何支持你的立场\n" ++
  "   → 格式：「没错，我确实认为[对方预判的内容]，因为...，这恰恰说明应该" ++ cfg.action ++ "辩题」\n\n" ++
  "⛔ 注意：你是辩论者，不是裁判！不要输出【犀利点评】【逻辑漏洞】【本轮胜负】等评判内容！"

/-- The later-round block of `_build_rebuttal_prompt`. -/
def rebuttalLaterBlock (cfg : StanceCfg) : String :=
  let oppositeAction := if cfg.action = "支持" then "反对" else "支持"
  "\n你是" ++ cfg.position ++ "，请按以下格式回复：\n" ++
  "1. 【我的立场】：一句话表态" ++ cfg.action ++ "辩题主张\n" ++
  "2. 【新论据】：1-2个支持" ++ cfg.action ++ "的新论据（之前未提过）\n" ++
  "3. 【反驳🔴对方观点】：\n   - 指出对方论据的问题\n" ++
  "   - ⚠️ 结论必须是「所以应该" ++ cfg.action ++ "辩题」，不能得出" ++
  oppositeAction ++ "的结论！\n" ++
  "4. 【辩护🟢我方观点】：如果对方批评了我的观点，要辩护并强化" ++ cfg.action ++ "的立场\n\n" ++
  "⛔ 注意：\n- 你是辩论者，不是裁判！不要输出【犀利点评】【逻辑漏洞】【本轮胜负】等评判内容！\n" ++
  "- 绝对禁止帮对方说话！你的每一句结论都必须支持" ++ cfg.action ++ "辩题！"

/-- `DebateAgent._build_rebuttal_prompt`. -/
def buildRebuttalPrompt (topic opponentView historySummary : String)
    (judgeFeedback : Option String) (debHist : Option (List RoundRecord))
    (cfg : StanceCfg) : String :=
  let isMyFirst := !histTruthy debHist
  "【辩论主题】" ++ topic ++ "\n" ++ historySummary ++
  "\n🔴【对方最新发言】：\n" ++ opponentView ++ "\n" ++
  (if isMyFirst then rebuttalFirstBlock cfg else rebuttalLaterBlock cfg) ++
  (if optTruthy judgeFeedback then
      "\n【裁判反馈】" ++ judgeFeedback.getD "" ++ "\n请针对裁判指出的问题回应。"
   else "")

/-- The per-instance data of a `DebateAgent`: the shared base-agent state,
the stance flag, and which tools were enabled at construction. -/
structure DebateAgentState where
  base : AgentState
  stancePro : Bool
  hasSearchTool : Bool
  hasRagTool : Bool

/-- The tool context `debate` accumulates (search results then RAG results). -/
def debateContextOf (searchFn ragFn : String → String) (ag : DebateAgentState)
    (topic : String) (useTools : Bool) (cfg : StanceCfg) : String :=
  if useTools then
    (if ag.hasSearchTool then searchFn (topic ++ " " ++ cfg.searchKeywords) else "") ++
    (if ag.hasRagTool then ragFn topic else "")
  else ""

/-- The prompt `debate` sends: opening prompt without a (truthy) opponent
view, rebuttal prompt otherwise, with the structured or reconstructed
history summary. -/
def debatePromptOf (ag : DebateAgentState) (topic : String)
    (opponentView : Option String) (judgeFeedback : Option String)
    (debateHistory : Option (List RoundRecord))
    (structuredHistory : Option String) (cfg : StanceCfg) : String :=
  let historySummary :=
    if optTruthy structuredHistory then "\n" ++ structuredHistory.getD "" ++ "\n"
    else if histTruthy debateHistory then
      buildHistorySummary ag.stancePro (debateHistory.getD [])
    else ""
  if optTruthy opponentView then
    buildRebuttalPrompt topic (opponentView.getD "") historySummary judgeFeedback
      debateHistory cfg
  else buildOpeningPrompt topic cfg

/-- `DebateAgent.debate`: build tool context and the opening or rebuttal
prompt, call `generate`, then run the (single) stance-consistency
verification and return its regex-cleaned output.  `searchFn` and `ragFn`
model `BaseAgent.search` and `BaseAgent.retrieve` (external tools). -/
def debate (modelGen : List ChatMsg → String)
    (loads : String → Except Unit (List (String × PyVal)))
    (searchFn ragFn : String → String)
    (ag : DebateAgentState) (topic : String)
    (opponentView : Option String := none) (useTools : Bool := false)
    (judgeFeedback : Option String := none)
    (debateHistory : Option (List RoundRecord) := none)
    (structuredHistory : Option String := none) : String × DebateAgentState :=
  let cfg := if ag.stancePro then proStance else conStance
  let context := debateContextOf searchFn ragFn ag topic useTools cfg
  let prompt :=
    debatePromptOf ag topic opponentView judgeFeedback debateHistory
      structuredHistory cfg
  let (response, st1) := baseGenerate modelGen ag.base prompt context
  let (finalResp, st2) :=
    verifyAndFixConsistency modelGen loads ag.stancePro topic cfg st1 response
      debateHistory
  (finalResp, { ag with base := st2 })

/-! ## `JudgeAgent.check_consensus` (agents/judge_agent.py) -/

/-- The prompt `check_consensus` sends to the model. -/
def consensusPromptOf (viewA viewB : String) : String :=
  "分析以下两个观点的一致程度:\n\n【智能体A】\n" ++ viewA ++
  "\n\n【智能体B】\n" ++ viewB ++
  "\n\n请回答:\n一致性: [是/否]\n评分: [0-100]\n理由: [简要说明]"

/-- `JudgeAgent.check_consensus`: ask the model, then parse its reply by
string search. -/
def checkConsensus (modelGen : List ChatMsg → String) (st : AgentState)
    (viewA viewB : String) : (Bool × ℚ × String) × AgentState :=
  let (response, st1) := baseGenerate modelGen st (consensusPromptOf viewA viewB) ""
  (checkConsensusParse response, st1)

/-! ## `DebateSystem.run_debate` (debate_system.py) -/

/-- `config.MAX_DEBATE_ROUNDS` default. -/
def MAX_DEBATE_ROUNDS : ℕ := 5

/-- `config.CONSENSUS_THRESHOLD` default. -/
def CONSENSUS_THRESHOLD : ℚ := 8 / 10

/-- Observable events of one `run_debate` execution, in program order. -/
inductive DEvent where
  | aSpeaks (round : ℕ) (opp : Option String) (view : String)
  | bSpeaks (round : ℕ) (opp : Option String) (view : String)
  | judged (round : ℕ) (evaluation : String)
  | recorded (round : ℕ)
  | consensusChecked (round : ℕ) (score : ℚ)
deriving Repr, DecidableEq

/-- The stateful oracles `run_debate` drives: the two stance agents' `debate`
methods, and the judge's `evaluate_round`, `check_consensus` and
`generate_final_summary`.  Argument order of the agents follows `debate`:
state, topic, opponent view, use_tools, judge feedback, debate history. -/
structure Oracles (σa σb τ : Type) where
  agentA : σa → String → Option String → Bool → Option String →
    Option (List RoundRecord) → σa × String
  agentB : σb → String → Option String → Bool → Option String →
    Option (List RoundRecord) → σb × String
  judgeEval : τ → String → String → String → ℕ → Bool → τ × String × String
  judgeConsensus : τ → String → String → τ × Bool × ℚ × String
  finalSummary : τ → String → τ × String

/-- The dictionary `run_debate` returns. -/
structure DebateResult where
  topic : String
  rounds : ℕ
  history : List RoundRecord
  final_summary : String

/-- The round loop of `run_debate`.  `fuel` counts the remaining iterations
of `for round_num in range(1, max_rounds + 1)`; at every call
`fuel = maxRounds + 1 - roundNum`.  The trace records the order of the
observable operations. -/
def runDebateLoop (O : Oracles σa σb τ) (topic : String) (maxRounds : ℕ)
    (useTools earlyStop : Bool) (threshold : ℚ) :
    (fuel roundNum : ℕ) → σa → σb → τ →
    (viewA viewB lastEval : Option String) →
    List RoundRecord → List DEvent →
    (σa × σb × τ) × List RoundRecord × List DEvent
  | 0, _, sa, sb, sj, _, _, _, history, trace => ((sa, sb, sj), history, trace)
  | fuel + 1, roundNum, sa, sb, sj, _viewA, viewB, lastEval, history, trace =>
      let histForAgents := if history.isEmpty then none else some history
      let ra := O.agentA sa topic viewB useTools lastEval histForAgents
      let rb := O.agentB sb topic (some ra.2) useTools lastEval histForAgents
      let je := O.judgeEval sj topic ra.2 rb.2 roundNum (roundNum == maxRounds)
      let history1 := history ++ [⟨roundNum, ra.2, rb.2, je.2.1⟩]
      let trace1 := trace ++
        [.aSpeaks roundNum viewB ra.2, .bSpeaks roundNum (some ra.2) rb.2,
         .judged roundNum je.2.1, .recorded roundNum]
      if earlyStop && decide (roundNum > 1) then
        let jc := O.judgeConsensus je.1 ra.2 rb.2
        let trace2 := trace1 ++ [.consensusChecked roundNum jc.2.2.1]
        if threshold ≤ jc.2.2.1 then ((ra.1, rb.1, jc.1), history1, trace2)
        else
          runDebateLoop O topic maxRounds useTools earlyStop threshold fuel
            (roundNum + 1) ra.1 rb.1 jc.1 (some ra.2) (some rb.2) (some je.2.1)
            history1 trace2
      else
        runDebateLoop O topic maxRounds useTools earlyStop threshold fuel
          (roundNum + 1) ra.1 rb.1 je.1 (some ra.2) (some rb.2) (some je.2.1)
          history1 trace1

/-- `DebateSystem.run_debate`.  The initial oracle states model the agents
right after `reset_history` / `reset`; the returned dictionary carries
`rounds = len(debate_history)`.  The event trace is returned alongside. -/
def runDebate (O : Oracles σa σb τ) (sa : σa) (sb : σb) (sj : τ)
    (topic : String) (maxRounds : ℕ := MAX_DEBATE_ROUNDS)
    (useTools : Bool := false) (earlyStop : Bool := true)
    (threshold : ℚ := CONSENSUS_THRESHOLD) : DebateResult × List DEvent :=
  let r := runDebateLoop O topic maxRounds useTools earlyStop threshold
    maxRounds 1 sa sb sj none none none [] []
  let history := r.2.1
  let trace := r.2.2
  let summary := (O.finalSummary r.1.2.2 topic).2
  (⟨topic, history.length, history, summary⟩, trace)

/-- The consensus-check events of a trace, in order: `(round, score)`. -/
def consensusChecksOf : List DEvent → List (ℕ × ℚ)
  | [] => []
  | .consensusChecked r s :: t => (r, s) :: consensusChecksOf t
  | _ :: t => consensusChecksOf t

/-- How many times agent A spoke in a trace (the number of executed rounds). -/
def aSpeaksCount : List DEvent → ℕ
  | [] => 0
  | .aSpeaks _ _ _ :: t => aSpeaksCount t + 1
  | _ :: t => aSpeaksCount t

/-- The four mandatory events of one round, in program order: A speaks
(receiving the previous round's B view), B speaks (receiving A's current
view), the judge evaluates, the record is appended. -/
def roundSegment (r : ℕ) (prevB : Option String) (rec : RoundRecord) : List DEvent :=
  [.aSpeaks r prevB rec.agent_a, .bSpeaks r (some rec.agent_a) rec.agent_b,
   .judged r rec.evaluation, .recorded r]

/-- The trace of a debate decomposes into per-round segments in increasing
round order: each round contributes its four mandatory events, optionally
followed by a consensus check of that round (after the record was appended),
and agent A's opponent view is threaded from the previous round's B view. -/
def TraceMatches : ℕ → Option String → List RoundRecord → List DEvent → Prop
  | _, _, [], t => t = []
  | r, prevB, rec :: hrest, t =>
      rec.round = r ∧
      ∃ checkPart trest, t = roundSegment r prevB rec ++ checkPart ++ trest ∧
        (checkPart = [] ∨ ∃ s, checkPart = [DEvent.consensusChecked r s]) ∧
        TraceMatches (r + 1) (some rec.agent_b) hrest trest

/-! ## `QwenModel` singleton (model_loader.py) -/

/-- The process-level class state of `QwenModel`: `_instance` (identified by
a numeric id), whether `_model` has been loaded, an instrumentation counter
of `_load_model` executions, and the id supply. -/
structure QwenProcState where
  instanceId : Option ℕ
  modelLoaded : Bool
  loadCount : ℕ
  nextId : ℕ
deriving Repr, DecidableEq

/-- The class state at interpreter start. -/
def qwenInitial : QwenProcState := ⟨none, false, 0, 0⟩

/-- `QwenModel.__new__`: create the instance only when `_instance is None`. -/
def qwenNew (s : QwenProcState) : QwenProcState × ℕ :=
  match s.instanceId with
  | some i => (s, i)
  | none => ({ s with instanceId := some s.nextId, nextId := s.nextId + 1 }, s.nextId)

/-- `QwenModel._load_model` (successful load). -/
def qwenLoadModel (s : QwenProcState) : QwenProcState :=
  { s with modelLoaded := true, loadCount := s.loadCount + 1 }

/-- `QwenModel.__init__`: load only when `_model is None`. -/
def qwenInitCall (s : QwenProcState) : QwenProcState :=
  if s.modelLoaded then s else qwenLoadModel s

/-- A full `QwenModel()` construction: `__new__` followed by `__init__`,
returning the instance id. -/
def qwenModelCall (s : QwenProcState) : QwenProcState × ℕ :=
  let p := qwenNew s
  (qwenInitCall p.1, p.2)

/-- `n` successive `QwenModel()` constructions from interpreter start,
collecting the returned instance ids. -/
def qwenModelCalls : ℕ → QwenProcState × List ℕ
  | 0 => (qwenInitial, [])
  | n + 1 =>
      let p := qwenModelCalls n
      let q := qwenModelCall p.1
      (q.1, p.2 ++ [q.2])

/-! ## `export_debate_result` (utils.py) -/

/-- `export_debate_result`, modelled on its format and path logic: the file
writes are external effects; `str(Path(p))` is treated as the identity on the
path string.  Returns the path and the format actually dispatched, or the
`ValueError` message. -/
def exportDebateResult (resultTopic : Option String) (outputPath : Option String)
    (format : Option String) (timestamp : String) : Except String (String × String) :=
  let fmt :=
    match format, outputPath with
    | some f, _ => f
    | none, some p =>
        if p ≠ "" then
          if pyEndsWith p ".md" then "markdown"
          else if pyEndsWith p ".txt" then "text"
          else "json"
        else "json"
    | none, none => "json"
  let path :=
    match outputPath with
    | some p => p
    | none =>
        let topicShort := pyReplace (pyTake (resultTopic.getD "debate") 20) " " "_"
        let ext := if fmt = "json" then "json" else "md"
        "debate_" ++ topicShort ++ "_" ++ timestamp ++ "." ++ ext
  if fmt = "json" ∨ fmt = "markdown" ∨ fmt = "text" then .ok (path, fmt)
  else .error ("不支持的格式: " ++ fmt)

/-! ## `chunk_text` (utils.py) -/

/-- The `while start < len(text)` loop of `chunk_text`; terminates because the
start index strictly increases by `chunkSize - overlap > 0` each iteration. -/
def chunkTextGo (text : List Char) (chunkSize overlap : ℕ)
    (h : overlap < chunkSize) (start : ℕ) : List (List Char) :=
  if _hlt : start < text.length then
    let endIdx := start + chunkSize
    let chunk := extractL text start endIdx
    let rest := chunkTextGo text chunkSize overlap h (endIdx - overlap)
    if pyStripL chunk ≠ [] then chunk :: rest else rest
  else []
termination_by text.length - start
decreasing_by omega

/-- `chunk_text` under the precondition `overlap < chunk_size` (outside it the
source loop does not terminate; see `loopStartIter`). -/
def chunkText (text : List Char) (chunkSize overlap : ℕ)
    (h : overlap < chunkSize) : List (List Char) :=
  if text.length ≤ chunkSize then [text] else chunkTextGo text chunkSize overlap h 0

/-- The start index after `n` iterations of the `chunk_text` loop, over ℤ
(Python integers), for analysing the `overlap ≥ chunk_size` case. -/
def loopStartIter (chunkSize overlap : ℤ) : ℕ → ℤ
  | 0 => 0
  | n + 1 => loopStartIter chunkSize overlap n + chunkSize - overlap

/-- The start indices the `chunk_text` loop visits, described as the claim
does: starting at `start` and strictly increasing by `step` while below
`len`. -/
def startsFrom (len step : ℕ) (hstep : 0 < step) (start : ℕ) : List ℕ :=
  if start < len then start :: startsFrom len step hstep (start + step) else []
termination_by len - start
decreasing_by omega

/-- The format the claim says is inferred when none is supplied. -/
def inferredFormat : Option String → String
  | some p => if pyEndsWith p ".md" then "markdown"
              else if pyEndsWith p ".txt" then "text"
              else "json"
  | none => "json"

/-- The modelled verification reply for the C6 counterexample: contains a
JSON-looking brace snippet. -/
def c6ModelGen : List ChatMsg → String :=
  fun _ => "x" ++ (⟨[lbraceC]⟩ : String) ++ "y" ++ (⟨[rbraceC]⟩ : String)

/-- The modelled `json.loads` for the C6 counterexample: always raises. -/
def c6Loads : String → Except Unit (List (String × PyVal)) := fun _ => .error ()

/-- Constant oracles for exercising the round loop: fixed agent views, a
fixed evaluation, and a fixed consensus verdict with score `9/10`. -/
def constOracles : Oracles Unit Unit Unit where
  agentA := fun _ _ _ _ _ _ => ((), "甲观点")
  agentB := fun _ _ _ _ _ _ => ((), "乙观点")
  judgeEval := fun _ _ _ _ _ _ => ((), "评估", "指导")
  judgeConsensus := fun _ _ _ => ((), true, 9 / 10, "理由")
  finalSummary := fun _ _ => ((), "总结")

/-! ## C7: the `QwenModel` singleton -/

/-- After at least one construction the class state is fixed: instance id 0,
model loaded, one load, id supply at 1. -/
lemma qwenModelCalls_state (n : ℕ) (h : 1 ≤ n) :
    (qwenModelCalls n).1 = ⟨some 0, true, 1, 1⟩ := by
  induction n with
  | zero => omega
  | succ m ih =>
    by_cases hm : 1 ≤ m
    · simp [qwenModelCalls, ih hm, qwenModelCall, qwenNew, qwenInitCall]
    · have hz : m = 0 := by omega
      subst hz
      simp [qwenModelCalls, qwenModelCall, qwenNew, qwenInitCall, qwenLoadModel,
        qwenInitial]

/-- C7: `QwenModel` is a guarded singleton: every one of `n` successive
`QwenModel()` constructions returns the identical instance (id 0), and
`_load_model` runs at most once per process — exactly once as soon as one
construction happened, so a second or third construction never reloads. -/
theorem qwenModel_singleton (n : ℕ) :
    (qwenModelCalls n).2.length = n ∧
    (∀ i ∈ (qwenModelCalls n).2, i = 0) ∧
    (qwenModelCalls n).1.loadCount = min n 1 := by
  induction n with
  | zero => simp [qwenModelCalls, qwenInitial]
  | succ m ih =>
    refine ⟨?_, ?_, ?_⟩
    · simp [qwenModelCalls, ih.1]
    · intro i hi
      by_cases hm : 1 ≤ m
      · simp only [qwenModelCalls, List.mem_append] at hi
        rcases hi with hi | hi
        · exact ih.2.1 i hi
        · have hst := qwenModelCalls_state m hm
          simp [qwenModelCall, qwenNew, hst] at hi
          simpa using hi
      · have hz : m = 0 := by omega
        subst hz
        simp [qwenModelCalls, qwenModelCall, qwenNew, qwenInitial] at hi
        simpa using hi
    · by_cases hm : 1 ≤ m
      · have hst := qwenModelCalls_state m hm
        simp [qwenModelCalls, qwenModelCall, qwenNew, qwenInitCall, hst]
      · have hz : m = 0 := by omega
        subst hz
        simp [qwenModelCalls, qwenModelCall, qwenNew, qwenInitCall, qwenLoadModel,
          qwenInitial]

/-- Witness for C7 at `n = 3`: three constructions return ids `[0, 0, 0]` and
the model was loaded exactly once. -/
theorem qwenModel_singleton_witness :
    (qwenModelCalls 3).2 = [0, 0, 0] ∧ (qwenModelCalls 3).1.loadCount = 1 :=
  ⟨by decide, by simpa using (qwenModel_singleton 3).2.2⟩

/-! ## C8: `export_debate_result` -/

/-- A string ends with a suffix appended to it. -/
lemma pyEndsWith_append (a b : String) : pyEndsWith (a ++ b) b = true := by
  simp only [pyEndsWith, List.isSuffixOf_iff_suffix, String.data_append]
  exact List.suffix_append a.data b.data

/-- C8: `export_debate_result` dispatches exactly one of the three formats:
an omitted format is inferred from the output path (`.md` markdown, `.txt`
text, otherwise json; json when the path is also absent); a `ValueError` is
raised exactly when an explicitly supplied format is not one of the three;
and an auto-generated filename ends in `.json` for json and in `.md` for
every other dispatched format. -/
theorem exportDebateResult_spec (topic? path? fmt? : Option String) (ts : String) :
    (∀ f, fmt? = some f → f ≠ "json" → f ≠ "markdown" → f ≠ "text" →
      exportDebateResult topic? path? fmt? ts = .error ("不支持的格式: " ++ f)) ∧
    (fmt? = none →
      ∃ p, exportDebateResult topic? path? fmt? ts = .ok (p, inferredFormat path?)) ∧
    (∀ f, fmt? = some f → (f = "json" ∨ f = "markdown" ∨ f = "text") →
      ∀ e, exportDebateResult topic? path? fmt? ts ≠ .error e) ∧
    (path? = none → ∀ p f, exportDebateResult topic? path? fmt? ts = .ok (p, f) →
      (f = "json" → pyEndsWith p ".json" = true) ∧
      (f ≠ "json" → pyEndsWith p ".md" = true)) := by
  refine ⟨?_, ?_, ?_, ?_⟩
  · intro f hf h1 h2 h3
    subst hf
    cases path? with
    | none => simp [exportDebateResult, h1, h2, h3]
    | some p => simp [exportDebateResult, h1, h2, h3]
  · intro hf
    subst hf
    cases path? with
    | none =>
        refine ⟨"debate_" ++ pyReplace (pyTake (topic?.getD "debate") 20) " " "_"
          ++ "_" ++ ts ++ "." ++ "json", ?_⟩
        simp [exportDebateResult, inferredFormat]
    | some p =>
        refine ⟨p, ?_⟩
        by_cases hp : p = ""
        · subst hp
          have hm : pyEndsWith "" ".md" = false := by decide
          have ht : pyEndsWith "" ".txt" = false := by decide
          simp [exportDebateResult, inferredFormat, hm, ht]
        · by_cases hmd : pyEndsWith p ".md" = true
          · simp [exportDebateResult, inferredFormat, hp, hmd]
          · by_cases htxt : pyEndsWith p ".txt" = true
            · simp [exportDebateResult, inferredFormat, hp, hmd, htxt]
            · simp [exportDebateResult, inferredFormat, hp, hmd, htxt]
  · intro f hf hone e
    subst hf
    cases path? with
    | none =>
        simp only [exportDebateResult]
        rw [if_pos hone]
        simp
    | some p =>
        simp only [exportDebateResult]
        rw [if_pos hone]
        simp
  · intro hp p f hok
    subst hp
    have hre : ∀ base ext : String,
        pyEndsWith (base ++ "." ++ ext) ("." ++ ext) = true := by
      intro base ext
      have hb : base ++ "." ++ ext = base ++ ("." ++ ext) := by
        simp [String.ext_iff, String.data_append]
      rw [hb]
      exact pyEndsWith_append base ("." ++ ext)
    rcases fmt? with _ | g
    · -- inferred json, auto path ends with ".json"
      simp only [exportDebateResult] at hok
      have hpair : ("debate_" ++ pyReplace (pyTake (topic?.getD "debate") 20) " " "_"
            ++ "_" ++ ts ++ "." ++ "json" = p) ∧ "json" = f := by
        simpa using hok
      refine ⟨fun _ => ?_, fun hne => absurd hpair.2.symm hne⟩
      rw [← hpair.1]
      exact hre _ "json"
    · -- explicit format g
      simp only [exportDebateResult] at hok
      by_cases hg : g = "json" ∨ g = "markdown" ∨ g = "text"
      · rw [if_pos hg] at hok
        have hpair : ("debate_" ++ pyReplace (pyTake (topic?.getD "debate") 20) " " "_"
              ++ "_" ++ ts ++ "." ++ (if g = "json" then "json" else "md") = p) ∧
            g = f := by
          simpa using hok
        rcases hpair with ⟨hpv, hfg⟩
        subst hfg
        constructor
        · intro hj
          rw [← hpv, if_pos hj]
          exact hre _ "json"
        · intro hj
          rw [← hpv, if_neg hj]
          have := hre ("debate_" ++ pyReplace (pyTake (topic?.getD "debate") 20) " " "_"
              ++ "_" ++ ts) "md"
          simpa using this
      · rw [if_neg hg] at hok
        exact absurd hok (by simp)

/-- Witness for C8: an explicit unsupported format raises the `ValueError`,
and the inferred format of a `.txt` path is text. -/
theorem exportDebateResult_witness :
    exportDebateResult (some "主题") none (some "xml") "20240101" =
      .error ("不支持的格式: " ++ "xml") ∧
    inferredFormat (some "out.txt") = "text" :=
  ⟨(exportDebateResult_spec (some "主题") none (some "xml") "20240101").1
      "xml" rfl (by decide) (by decide) (by decide),
   by decide⟩

/-! ## C10: `chunk_text` -/

/-- The loop of `chunk_text` produces exactly the windows at the arithmetic
progression of start indices, omitting the all-whitespace ones. -/
lemma chunkTextGo_spec (text : List Char) (cs ov : ℕ) (h : ov < cs)
    (hpos : 0 < cs - ov) :
    ∀ start, chunkTextGo text cs ov h start =
      ((startsFrom text.length (cs - ov) hpos start).map
        (fun st => extractL text st (st + cs))).filter
        (fun w => decide (pyStripL w ≠ [])) := by
  have H : ∀ n start, text.length - start ≤ n →
      chunkTextGo text cs ov h start =
        ((startsFrom text.length (cs - ov) hpos start).map
          (fun st => extractL text st (st + cs))).filter
          (fun w => decide (pyStripL w ≠ [])) := by
    intro n
    induction n with
    | zero =>
        intro start hle
        have hge : ¬ start < text.length := by omega
        rw [chunkTextGo, startsFrom]
        simp [hge]
    | succ n ih =>
        intro start hle
        by_cases hlt : start < text.length
        · rw [chunkTextGo, startsFrom]
          have harith : start + cs - ov = start + (cs - ov) := by omega
          have hrec := ih (start + (cs - ov)) (by omega)
          simp only [dif_pos hlt, if_pos hlt, harith, hrec, List.map_cons,
            List.filter_cons]
          by_cases hws : pyStripL (extractL text start (start + cs)) ≠ []
          · simp [hws]
          · simp [hws]
        · rw [chunkTextGo, startsFrom]
          simp [hlt]
  intro start
  exact H (text.length - start) start le_rfl

/-- C10: `chunk_text` returns `[text]` for text no longer than `chunk_size`;
for longer text with `0 ≤ overlap < chunk_size` it terminates, visiting start
indices that strictly increase by `chunk_size - overlap`, and returns the
windows `text[start : start + chunk_size]` at those starts, omitting windows
that are entirely whitespace; when `overlap ≥ chunk_size` the start index
never reaches the exit condition, so the loop does not terminate. -/
theorem chunk_text_spec :
    (∀ (text : List Char) (cs ov : ℕ) (h : ov < cs), text.length ≤ cs →
      chunkText text cs ov h = [text]) ∧
    (∀ (text : List Char) (cs ov : ℕ) (h : ov < cs), cs < text.length →
      chunkText text cs ov h =
        ((startsFrom text.length (cs - ov) (Nat.sub_pos_of_lt h) 0).map
          (fun st => extractL text st (st + cs))).filter
          (fun w => decide (pyStripL w ≠ []))) ∧
    (∀ (len step : ℕ) (hstep : 0 < step), ∀ (k start : ℕ) (a b : ℕ),
      (startsFrom len step hstep start).get? k = some a →
      (startsFrom len step hstep start).get? (k + 1) = some b → b = a + step) ∧
    (∀ (cs ov : ℕ) (len : ℤ), cs ≤ ov → (cs : ℤ) < len →
      ∀ n, loopStartIter (cs : ℤ) (ov : ℤ) n < len) := by
  refine ⟨?_, ?_, ?_, ?_⟩
  · intro text cs ov h hle
    rw [chunkText, if_pos hle]
  · intro text cs ov h hlt
    rw [chunkText, if_neg (by omega)]
    exact chunkTextGo_spec text cs ov h (Nat.sub_pos_of_lt h) 0
  · intro len step hstep k
    induction k with
    | zero =>
        intro start a b ha hb
        rw [startsFrom] at ha hb
        by_cases hlt : start < len
        · rw [if_pos hlt] at ha hb
          simp only [List.get?] at ha hb
          obtain rfl : start = a := by simpa using ha
          rw [startsFrom] at hb
          by_cases hlt2 : start + step < len
          · rw [if_pos hlt2] at hb
            simpa using hb.symm
          · rw [if_neg hlt2] at hb
            simp at hb
        · rw [if_neg hlt] at ha
          simp at ha
    | succ k ih =>
        intro start a b ha hb
        rw [startsFrom] at ha hb
        by_cases hlt : start < len
        · rw [if_pos hlt] at ha hb
          simp only [List.get?] at ha hb
          exact ih (start + step) a b ha hb
        · rw [if_neg hlt] at ha
          simp at ha
  · intro cs ov len hcs hlen n
    have hle : ∀ m, loopStartIter (cs : ℤ) (ov : ℤ) m ≤ 0 := by
      intro m
      induction m with
      | zero => simp [loopStartIter]
      | succ m ih =>
          have hz : (cs : ℤ) ≤ (ov : ℤ) := by exact_mod_cast hcs
          simp only [loopStartIter]
          omega
    have h0 : (0 : ℤ) ≤ (cs : ℤ) := Int.ofNat_nonneg cs
    have := hle n
    omega

/-- Witness for C10: a two-character text with `chunk_size = 3` is returned
whole, and with `overlap = chunk_size = 3` the loop start stays below any
positive length forever. -/
theorem chunk_text_witness :
    chunkText "ab".data 3 1 (by decide) = ["ab".data] ∧
    (∀ n, loopStartIter (3 : ℤ) (3 : ℤ) n < 7) :=
  ⟨chunk_text_spec.1 "ab".data 3 1 (by decide) (by decide),
   chunk_text_spec.2.2.2 3 3 7 (by decide) (by decide)⟩

/-! ## C9: `BaseAgent.generate` history bookkeeping -/

/-- Shape of the history after folding a list of `generate` calls: an
appended tail of user / assistant pairs, the user entries carrying the bare
prompts. -/
lemma foldGenerate_shape (mg : List ChatMsg → String) :
    ∀ (calls : List (String × String)) (st : AgentState),
    ∃ tail : List ChatMsg,
      (foldGenerate mg st calls).history = st.history ++ tail ∧
      tail.length = 2 * calls.length ∧
      (∀ k m, tail.get? k = some m →
        m.role = if k % 2 = 0 then "user" else "assistant") ∧
      (∀ j p c, calls.get? j = some (p, c) →
        tail.get? (2 * j) = some ⟨"user", p⟩ ∧
        ∃ r, tail.get? (2 * j + 1) = some ⟨"assistant", r⟩) := by
  intro calls
  induction calls with
  | nil =>
      intro st
      refine ⟨[], by simp [foldGenerate], by simp, ?_, ?_⟩
      · intro k m hk
        simp at hk
      · intro j p c hj
        simp at hj
  | cons pc rest ih =>
      intro st
      obtain ⟨p, c⟩ := pc
      obtain ⟨tail1, h1, hlen, hrole, hidx⟩ := ih (baseGenerate mg st p c).2
      refine ⟨⟨"user", p⟩ :: ⟨"assistant", mg (generateMessages st p c)⟩ :: tail1,
        ?_, ?_, ?_, ?_⟩
      · simp only [foldGenerate]
        rw [h1]
        simp [baseGenerate]
      · simp [hlen]
        ring
      · intro k m hk
        match k, hk with
        | 0, hk => simp at hk; simp [← hk]
        | 1, hk => simp at hk; simp [← hk]
        | (k + 2), hk =>
            have hmod : (k + 2) % 2 = k % 2 := by omega
            rw [hmod]
            exact hrole k m (by simpa using hk)
      · intro j q d hj
        cases j with
        | zero =>
            simp only [List.get?_cons_zero, Option.some.injEq, Prod.mk.injEq] at hj
            obtain ⟨hq, _⟩ := hj
            subst hq
            exact ⟨by simp, ⟨mg (generateMessages st p c), by simp⟩⟩
        | succ j =>
            have h2 : 2 * (j + 1) = 2 * j + 2 := by ring
            have h3 : 2 * (j + 1) + 1 = (2 * j + 1) + 2 := by ring
            rw [h3, h2]
            have hskip : ∀ (x y : ChatMsg) (l : List ChatMsg) (n : ℕ),
                (x :: y :: l).get? (n + 2) = l.get? n := fun _ _ _ _ => rfl
            rw [hskip, hskip]
            exact hidx j q d (by simpa using hj)

/-- C9: every `generate` call appends exactly two history entries — a user
entry carrying the bare prompt (while the message actually sent to the model
carries the context-prefixed form, which differs whenever the context is
nonempty) and then an assistant entry — so after `n` calls since
`reset_history` the history has length `2n` and strictly alternates user and
assistant roles, the user entries being the bare prompts. -/
theorem baseGenerate_history_spec :
    (∀ (mg : List ChatMsg → String) (st : AgentState) (p c : String),
      (baseGenerate mg st p c).2.history =
        st.history ++ [⟨"user", p⟩, ⟨"assistant", (baseGenerate mg st p c).1⟩] ∧
      (generateMessages st p c).getLast? = some ⟨"user", buildUserMsg c p⟩ ∧
      (c ≠ "" → buildUserMsg c p ≠ p)) ∧
    (∀ (mg : List ChatMsg → String) (st : AgentState)
        (calls : List (String × String)),
      (foldGenerate mg (resetHistory st) calls).history.length = 2 * calls.length ∧
      (∀ k m, (foldGenerate mg (resetHistory st) calls).history.get? k = some m →
        m.role = if k % 2 = 0 then "user" else "assistant") ∧
      (∀ j p c, calls.get? j = some (p, c) →
        (foldGenerate mg (resetHistory st) calls).history.get? (2 * j) =
          some ⟨"user", p⟩ ∧
        ∃ r, (foldGenerate mg (resetHistory st) calls).history.get? (2 * j + 1) =
          some ⟨"assistant", r⟩)) := by
  constructor
  · intro mg st p c
    refine ⟨by simp [baseGenerate], ?_, ?_⟩
    · show (⟨"system", st.systemPrompt⟩ ::
          (st.history ++ [⟨"user", buildUserMsg c p⟩]) : List ChatMsg).getLast? = _
      rw [show (⟨"system", st.systemPrompt⟩ ::
            (st.history ++ [(⟨"user", buildUserMsg c p⟩ : ChatMsg)]) : List ChatMsg) =
          (⟨"system", st.systemPrompt⟩ :: st.history) ++ [⟨"user", buildUserMsg c p⟩]
        from by simp]
      exact List.getLast?_concat _
    · intro hc heq
      have hlen := congrArg String.length heq
      rw [buildUserMsg, if_pos hc] at hlen
      simp only [String.length_append] at hlen
      have h6 : ("参考信息:\n" : String).length = 6 := by decide
      have h2 : ("\n\n" : String).length = 2 := by decide
      rw [h6, h2] at hlen
      omega
  · intro mg st calls
    obtain ⟨tail, h1, hlen, hrole, hidx⟩ := foldGenerate_shape mg calls (resetHistory st)
    have hh : (foldGenerate mg (resetHistory st) calls).history = tail := by
      rw [h1]
      simp [resetHistory]
    rw [hh]
    exact ⟨hlen, hrole, hidx⟩

/-- Witness for C9: a single call with nonempty context appends the bare
prompt and the reply; the sent user message differs from the bare prompt. -/
theorem baseGenerate_history_witness :
    (baseGenerate (fun _ => "re") ⟨"sys", []⟩ "hi" "ctx").2.history =
      [⟨"user", "hi"⟩, ⟨"assistant", "re"⟩] ∧
    buildUserMsg "ctx" "hi" ≠ "hi" := by
  have h := (baseGenerate_history_spec.1 (fun _ => "re") ⟨"sys", []⟩ "hi" "ctx")
  exact ⟨by simpa using h.1, h.2.2 (by decide)⟩

/-! ## C3: `check_consensus` scoring -/

/-- Evaluation of `pyFloatOfDigits` on a nonempty all-digit list: the plain
decimal value. -/
lemma pyFloatOfDigits_allDigits (l : List Char) (n : ℕ)
    (hd : l.all Char.isDigit = true) (hne : l ≠ [])
    (hfold : l.foldl (fun a c => a * 10 + c.toNat - '0'.toNat) 0 = n) :
    pyFloatOfDigits l = some (n : ℚ) := by
  have hnotdot : ∀ c ∈ l, (c == '.') = false := by
    intro c hc
    have hcdig : c.isDigit = true := by
      have := List.all_eq_true.mp hd c hc
      simpa using this
    cases hcc : (c == '.')
    · rfl
    · exfalso
      have : c = '.' := by simpa using hcc
      subst this
      simp [Char.isDigit] at hcdig
  have htw : ∀ (m : List Char), (∀ c ∈ m, (c == '.') = false) →
      m.takeWhile (fun c => c != '.') = m := by
    intro m
    induction m with
    | nil => intro _; rfl
    | cons a t ih =>
        intro hm
        have ha : (a != '.') = true := by
          have := hm a (by simp)
          simp [bne, this]
        rw [List.takeWhile_cons, if_pos ha, ih (fun c hc => hm c (by simp [hc]))]
  have hdw : ∀ (m : List Char), (∀ c ∈ m, (c == '.') = false) →
      m.dropWhile (fun c => c != '.') = [] := by
    intro m
    induction m with
    | nil => intro _; rfl
    | cons a t ih =>
        intro hm
        have ha : (a != '.') = true := by
          have := hm a (by simp)
          simp [bne, this]
        rw [List.dropWhile_cons, if_pos ha]
        exact ih (fun c hc => hm c (by simp [hc]))
  have hfd : (l.filter (fun c => c == '.')) = [] := by
    rw [List.filter_eq_nil_iff]
    intro c hc
    simp [hnotdot c hc]
  have hany : l.any Char.isDigit = true := by
    cases l with
    | nil => exact absurd rfl hne
    | cons a t =>
        have := List.all_eq_true.mp hd a (by simp)
        simp [List.any_cons]
        left
        simpa using this
  unfold pyFloatOfDigits
  rw [if_pos ⟨by simp [hany], by simp [hfd]⟩]
  simp only [htw l hnotdot, hdw l hnotdot, List.drop_nil, List.foldl_nil,
    List.length_nil, hfold]
  norm_num

/-- Case analysis of the `check_consensus` score: bounded by `[0, 1]`,
`0.5` without the marker or on a parse failure, and the clamped parsed
number over 100 otherwise. -/
lemma consensusScoreOf_spec (reply : String) :
    (0 ≤ consensusScoreOf reply ∧ consensusScoreOf reply ≤ 1) ∧
    (containsSub reply "评分" = false → consensusScoreOf reply = 1 / 2) ∧
    (∀ seg line v,
      (pySplit reply "评分")[1]? = some seg →
      (pySplit seg "\n")[0]? = some line →
      pyFloatOfDigits (line.data.filter fun c => c.isDigit || c == '.') = some v →
      containsSub reply "评分" = true →
      consensusScoreOf reply = min 1 (max 0 (v / 100))) ∧
    (∀ seg line,
      (pySplit reply "评分")[1]? = some seg →
      (pySplit seg "\n")[0]? = some line →
      pyFloatOfDigits (line.data.filter fun c => c.isDigit || c == '.') = none →
      containsSub reply "评分" = true →
      consensusScoreOf reply = 1 / 2) := by
  have hclamp : ∀ x : ℚ, 0 ≤ min 1 (max 0 x) ∧ min 1 (max 0 x) ≤ 1 := fun x =>
    ⟨le_min (by norm_num) (le_max_left 0 x), min_le_left 1 _⟩
  by_cases hm : containsSub reply "评分" = true
  · cases hseg : (pySplit reply "评分")[1]? with
    | none =>
        have hval : consensusScoreOf reply = 1 / 2 := by
          simp [consensusScoreOf, hm, hseg]
        refine ⟨⟨by rw [hval]; norm_num, by rw [hval]; norm_num⟩, ?_, ?_, ?_⟩
        · intro hfalse
          rw [hm] at hfalse
          cases hfalse
        · intro seg line v hs
          cases hs
        · intro seg line hs
          cases hs
    | some seg =>
        cases hline : (pySplit seg "\n")[0]? with
        | none =>
            have hval : consensusScoreOf reply = 1 / 2 := by
              simp [consensusScoreOf, hm, hseg, hline]
            refine ⟨⟨by rw [hval]; norm_num, by rw [hval]; norm_num⟩, ?_, ?_, ?_⟩
            · intro hfalse
              rw [hm] at hfalse
              cases hfalse
            · intro seg2 line v hs hl
              cases hs
              rw [hline] at hl
              cases hl
            · intro seg2 line hs hl
              cases hs
              rw [hline] at hl
              cases hl
        | some line =>
            cases hv : pyFloatOfDigits (line.data.filter fun c => c.isDigit || c == '.') with
            | none =>
                have hval : consensusScoreOf reply = 1 / 2 := by
                  simp [consensusScoreOf, hm, hseg, hline, hv]
                refine ⟨⟨by rw [hval]; norm_num, by rw [hval]; norm_num⟩, ?_, ?_, ?_⟩
                · intro hfalse
                  rw [hm] at hfalse
                  cases hfalse
                · intro seg2 line2 v2 hs hl hv2
                  cases hs
                  rw [hline] at hl
                  cases hl
                  rw [hv] at hv2
                  cases hv2
                · intro seg2 line2 hs hl hv2
                  exact fun _ => hval
            | some v =>
                have hval : consensusScoreOf reply = min 1 (max 0 (v / 100)) := by
                  simp [consensusScoreOf, hm, hseg, hline, hv]
                refine ⟨⟨by rw [hval]; exact (hclamp _).1,
                         by rw [hval]; exact (hclamp _).2⟩, ?_, ?_, ?_⟩
                · intro hfalse
                  rw [hm] at hfalse
                  cases hfalse
                · intro seg2 line2 v2 hs hl hv2
                  cases hs
                  rw [hline] at hl
                  cases hl
                  rw [hv] at hv2
                  cases hv2
                  exact fun _ => hval
                · intro seg2 line2 hs hl hv2
                  cases hs
                  rw [hline] at hl
                  cases hl
                  rw [hv] at hv2
                  cases hv2
  · have hm0 : containsSub reply "评分" = false := by
      cases hx : containsSub reply "评分"
      · rfl
      · exact absurd hx hm
    have hval : consensusScoreOf reply = 1 / 2 := by
      have hfil : ("50" : String).data.filter (fun c => c.isDigit || c == '.') =
          ['5', '0'] := by decide
      have h50 : pyFloatOfDigits (['5', '0'] : List Char) = some ((50 : ℕ) : ℚ) :=
        pyFloatOfDigits_allDigits ['5', '0'] 50 (by decide) (by decide) (by decide)
      simp [consensusScoreOf, hm0, hfil, h50]
      norm_num
    refine ⟨⟨by rw [hval]; norm_num, by rw [hval]; norm_num⟩,
      fun _ => hval, ?_, ?_⟩
    · intro seg line v _ _ _ htrue
      rw [hm0] at htrue
      cases htrue
    · intro seg line _ _ _ htrue
      rw [hm0] at htrue
      cases htrue

/-- C3: for every pair of views, `check_consensus` returns the triple
`(has_consensus, score, reason)` with `reason` the full oracle reply,
`has_consensus` true exactly when `是` occurs in the first 50 characters of
the reply, and `score` in `[0, 1]`: the number string-matched after `评分`
divided by 100 and clamped, or `0.5` when the marker is absent or the
extracted text does not parse as a number. -/
theorem judge_checkConsensus_spec (mg : List ChatMsg → String) (st : AgentState)
    (viewA viewB reply : String)
    (hreply : reply = mg (generateMessages st (consensusPromptOf viewA viewB) "")) :
    (checkConsensus mg st viewA viewB).1 =
      (containsSub (pyTake reply 50) "是", consensusScoreOf reply, reply) ∧
    (0 ≤ consensusScoreOf reply ∧ consensusScoreOf reply ≤ 1) ∧
    (containsSub reply "评分" = false → consensusScoreOf reply = 1 / 2) ∧
    (∀ seg line v,
      (pySplit reply "评分")[1]? = some seg →
      (pySplit seg "\n")[0]? = some line →
      pyFloatOfDigits (line.data.filter fun c => c.isDigit || c == '.') = some v →
      containsSub reply "评分" = true →
      consensusScoreOf reply = min 1 (max 0 (v / 100))) ∧
    (∀ seg line,
      (pySplit reply "评分")[1]? = some seg →
      (pySplit seg "\n")[0]? = some line →
      pyFloatOfDigits (line.data.filter fun c => c.isDigit || c == '.') = none →
      containsSub reply "评分" = true →
      consensusScoreOf reply = 1 / 2) := by
  subst hreply
  exact ⟨rfl, consensusScoreOf_spec _⟩

/-! ## C5: `DebateTracker.parse_speech` -/

/-- The head of a `dropWhile` never satisfies the dropped predicate. -/
lemma dropWhile_head?_not (p : Char → Bool) : ∀ (l : List Char) (c : Char),
    (l.dropWhile p).head? = some c → p c = false := by
  intro l
  induction l with
  | nil => intro c h; simp at h
  | cons a t ih =>
      intro c h
      rw [List.dropWhile_cons] at h
      by_cases hp : p a = true
      · rw [if_pos hp] at h
        exact ih c h
      · rw [if_neg hp] at h
        simp only [List.head?_cons, Option.some.injEq] at h
        subst h
        cases hx : p a
        · rfl
        · exact absurd hx hp

/-- `dropWhile` is the identity when the head does not satisfy the predicate. -/
lemma dropWhile_eq_self_of_head (p : Char → Bool) (l : List Char)
    (h : ∀ c, l.head? = some c → p c = false) : l.dropWhile p = l := by
  cases l with
  | nil => rfl
  | cons a t =>
      rw [List.dropWhile_cons, if_neg]
      have := h a rfl
      simp [this]

/-- A nonempty prefix has the same head. -/
lemma prefix_head?_eq {α : Type} (u t : List α) (h : u <+: t) (hne : u ≠ []) :
    u.head? = t.head? := by
  rcases h with ⟨k, rfl⟩
  cases u with
  | nil => exact absurd rfl hne
  | cons a u2 => rfl

/-- The head of a stripped list is not whitespace. -/
lemma pyStripL_head (l : List Char) : ∀ c,
    (pyStripL l).head? = some c → isPySpace c = false := by
  intro c hc
  unfold pyStripL pyStripLeft at hc
  set t := l.dropWhile isPySpace with ht
  have hsuf : (t.reverse.dropWhile isPySpace) <:+ t.reverse := List.dropWhile_suffix _
  rcases hsuf with ⟨k, hk⟩
  have hpre : (t.reverse.dropWhile isPySpace).reverse <+: t := by
    refine ⟨k.reverse, ?_⟩
    have := congrArg List.reverse hk
    simpa [List.reverse_append] using this
  by_cases hne : (t.reverse.dropWhile isPySpace).reverse = []
  · rw [hne] at hc
    simp at hc
  · have hhead := prefix_head?_eq _ _ hpre hne
    rw [hhead] at hc
    exact dropWhile_head?_not isPySpace l c hc

/-- The last element of a stripped list is not whitespace. -/
lemma pyStripL_last (l : List Char) : ∀ c,
    (pyStripL l).getLast? = some c → isPySpace c = false := by
  intro c hc
  unfold pyStripL pyStripLeft at hc
  rw [← List.head?_reverse, List.reverse_reverse] at hc
  exact dropWhile_head?_not isPySpace _ c hc

/-- Stripping is idempotent (character lists). -/
lemma pyStripL_idem (l : List Char) : pyStripL (pyStripL l) = pyStripL l := by
  conv_lhs => rw [pyStripL, pyStripLeft]
  rw [dropWhile_eq_self_of_head isPySpace (pyStripL l) (pyStripL_head l)]
  rw [dropWhile_eq_self_of_head isPySpace (pyStripL l).reverse
    (fun c hc => pyStripL_last l c (by rwa [List.head?_reverse] at hc))]
  exact List.reverse_reverse _

/-- Python `strip` is idempotent. -/
lemma pyStrip_idem (s : String) : pyStrip (pyStrip s) = pyStrip s := by
  unfold pyStrip
  exact congrArg String.mk (pyStripL_idem s.data)

/-- A nonempty match of a sequence beginning with a literal needs the literal
at the match position. -/
lemma matchSeq_lit_cons (s cs : List Char) (rest : List RE) (i : ℕ)
    (h : matchSeq s (.lit cs :: rest) i ≠ []) : litAt s cs i = true := by
  by_contra hlit
  apply h
  rw [matchSeq, matchItem, if_neg hlit]
  rfl

/-- A successful bounded search found a position where the pattern matches. -/
lemma reSearchGo_matches (s : List Char) (pat : List RE) :
    ∀ (fuel i st en : ℕ) (cap : Option (ℕ × ℕ)),
    reSearchGo s pat fuel i = some (st, en, cap) → matchSeq s pat st ≠ [] := by
  intro fuel
  induction fuel with
  | zero => intro i st en cap h; simp [reSearchGo] at h
  | succ fuel ih =>
      intro i st en cap h
      rw [reSearchGo] at h
      cases hm : reMatchAt s pat i with
      | some r =>
          rw [hm] at h
          simp only [Option.some.injEq] at h
          obtain ⟨rfl, -⟩ := h
          intro hempty
          rw [reMatchAt, hempty] at hm
          simp at hm
      | none =>
          rw [hm] at h
          by_cases hlt : i < s.length
          · rw [if_pos hlt] at h
            exact ih (i + 1) st en cap h
          · rw [if_neg hlt] at h
            simp at h

/-- A literal occurring at some offset occurs as a substring. -/
lemma containsSubL_of_litAt (s sub : List Char) (i : ℕ) (hne : sub ≠ [])
    (h : litAt s sub i = true) : containsSubL s sub = true := by
  have hpre : sub <+: s.drop i := by
    rw [litAt, List.isPrefixOf_iff_prefix] at h
    exact h
  have hlen : sub.length ≤ s.length - i := by
    have := hpre.length_le
    simpa using this
  have hsub1 : 1 ≤ sub.length := by
    cases sub with
    | nil => exact absurd rfl hne
    | cons a t => simp
  have hi : i < s.length + 1 := by omega
  rw [containsSubL, List.any_eq_true]
  exact ⟨i, List.mem_range.mpr hi, h⟩

/-- No match for a pattern whose first item is a literal absent from the
text: the grouped search returns nothing. -/
lemma reSearchGroup_none_of_no_marker (speech : String) (marker : String)
    (rest : List RE) (hne : marker.data ≠ [])
    (h : containsSub speech marker = false) :
    reSearchGroup (litOf marker :: rest) speech.data = none := by
  unfold reSearchGroup
  cases hs : reSearchFrom speech.data (litOf marker :: rest) 0 with
  | none => rfl
  | some r =>
      exfalso
      obtain ⟨st, en, cap⟩ := r
      have hmatch := reSearchGo_matches speech.data (litOf marker :: rest) _ 0 st en cap hs
      have hlit := matchSeq_lit_cons speech.data marker.data rest st hmatch
      have := containsSubL_of_litAt speech.data marker.data st hne hlit
      rw [containsSub] at h
      rw [h] at this
      cases this

/-- C5: `parse_speech` returns a dictionary with keys `round`, `position`
and `arguments`: `round` is the given round number; `position` is the
stripped text captured after the `【我的立场】` marker, the empty string when
the marker is absent; `arguments` is the list of numbered items extracted
from the `【核心论据】` and `【新论据】` sections, each stripped and nonempty,
empty when no such section exists. -/
theorem parseSpeech_spec (speech : String) (r : ℕ) :
    (parseSpeech speech r).round = r ∧
    (parseSpeech speech r).arguments =
      argsOfSection speech "【核心论据】" ++ argsOfSection speech "【新论据】" ∧
    (∀ cap, reSearchGroup positionPat speech.data = some cap →
      (parseSpeech speech r).position = pyStrip ⟨cap⟩) ∧
    (containsSub speech "【我的立场】" = false →
      (parseSpeech speech r).position = "") ∧
    (∀ a ∈ (parseSpeech speech r).arguments, a ≠ "" ∧ pyStrip a = a) ∧
    (containsSub speech "【核心论据】" = false →
      containsSub speech "【新论据】" = false →
      (parseSpeech speech r).arguments = []) := by
  have hargs : (parseSpeech speech r).arguments =
      argsOfSection speech "【核心论据】" ++ argsOfSection speech "【新论据】" := by
    simp only [parseSpeech, argSections, List.foldl_cons, List.foldl_nil,
      argsOfSection]
    cases h1 : reSearchGroup (sectionPatOf "【核心论据】") speech.data <;>
      cases h2 : reSearchGroup (sectionPatOf "【新论据】") speech.data <;>
        simp
  refine ⟨rfl, hargs, ?_, ?_, ?_, ?_⟩
  · intro cap hcap
    simp [parseSpeech, hcap]
  · intro hno
    have hnone : reSearchGroup positionPat speech.data = none := by
      have : positionPat = litOf "【我的立场】" ::
          [.cls colonC, .star isPySpace, .grp [.plusL anyC],
           .look [.alt2 [litOf "\n\n"] [.alt2 [litOf "\n【"] [.eol false]]]] := rfl
      rw [this]
      exact reSearchGroup_none_of_no_marker speech "【我的立场】" _ (by decide) hno
    simp [parseSpeech, hnone]
  · intro a ha
    rw [hargs] at ha
    have hone : ∀ sec, a ∈ argsOfSection speech sec → a ≠ "" ∧ pyStrip a = a := by
      intro sec hmem
      unfold argsOfSection at hmem
      cases hg : reSearchGroup (sectionPatOf sec) speech.data with
      | none => rw [hg] at hmem; simp at hmem
      | some grp =>
          rw [hg] at hmem
          rw [List.mem_filter] at hmem
          obtain ⟨hmap, hne⟩ := hmem
          refine ⟨by simpa using hne, ?_⟩
          rw [List.mem_map] at hmap
          obtain ⟨raw, -, rfl⟩ := hmap
          exact pyStrip_idem _
    rcases List.mem_append.mp ha with hmem | hmem
    · exact hone _ hmem
    · exact hone _ hmem
  · intro h1 h2
    rw [hargs]
    have e1 : argsOfSection speech "【核心论据】" = [] := by
      unfold argsOfSection
      rw [show sectionPatOf "【核心论据】" = litOf "【核心论据】" ::
          [.opt colonC, .star isPySpace, .grp [.plusL anyC],
           .look [.alt2 [litOf "\n【"] [.eol false]]] from rfl]
      rw [reSearchGroup_none_of_no_marker speech "【核心论据】" _ (by decide) h1]
    have e2 : argsOfSection speech "【新论据】" = [] := by
      unfold argsOfSection
      rw [show sectionPatOf "【新论据】" = litOf "【新论据】" ::
          [.opt colonC, .star isPySpace, .grp [.plusL anyC],
           .look [.alt2 [litOf "\n【"] [.eol false]]] from rfl]
      rw [reSearchGroup_none_of_no_marker speech "【新论据】" _ (by decide) h2]
    rw [e1, e2]
    rfl

/-- Witness for C5 on a concrete speech: round is echoed, the position is
captured and stripped, and both numbered arguments are extracted. -/
theorem parseSpeech_witness :
    (parseSpeech "【我的立场】：支持\n【核心论据】：\n1. 高效\n2. 普惠\n" 4).round = 4 ∧
    (parseSpeech "没有任何标记" 9).position = "" ∧
    (parseSpeech "没有任何标记" 9).arguments = [] := by
  refine ⟨(parseSpeech_spec _ 4).1, ?_, ?_⟩
  · exact (parseSpeech_spec "没有任何标记" 9).2.2.2.1 (by decide)
  · exact (parseSpeech_spec "没有任何标记" 9).2.2.2.2.2 (by decide) (by decide)

/-! ## C2 and C6: the verification step of `DebateAgent.debate` -/

/-- The single loop iteration either keeps the response (verification passed,
no JSON found, or parse failure) or regenerates once; either way the answer
is `_clean_response` of the kept or regenerated text. -/
lemma verifyIteration_outcome (mg : List ChatMsg → String)
    (loads : String → Except Unit (List (String × PyVal)))
    (topic vp : String) (canRetry : Bool) (st : AgentState) (response : String) :
    verifyIteration mg loads topic vp canRetry st response =
      (cleanResponse response, (baseGenerate mg st vp "").2) ∨
    (∃ fixPrompt,
      verifyIteration mg loads topic vp canRetry st response =
        (cleanResponse (baseGenerate mg (baseGenerate mg st vp "").2 fixPrompt "").1,
         (baseGenerate mg (baseGenerate mg st vp "").2 fixPrompt "").2)) := by
  dsimp only [verifyIteration]
  cases hjs : reSearchMatch jsonSnippetPat (baseGenerate mg st vp "").1 with
  | none => left; dsimp only
  | some snippet =>
      cases hl : loads snippet with
      | error e =>
          left
          dsimp only
          rw [hl]
      | ok result =>
          by_cases hc : (pyTruthy (dictGet result "consistent" (.bool true)) &&
              pyTruthy (dictGet result "attribution_correct" (.bool true))) = true
          · left
            dsimp only
            rw [hl]
            dsimp only
            rw [if_pos hc]
          · cases canRetry with
            | false =>
                left
                dsimp only
                rw [hl]
                dsimp only
                rw [if_neg hc]
                simp
            | true =>
                right
                refine ⟨"问题：" ++ pyRepr (dictGet result "problems" (.list [])) ++
                  "\n请重新生成发言，主题：" ++ topic, ?_⟩
                dsimp only
                rw [hl]
                dsimp only
                rw [if_neg hc]
                simp

/-- The `debate` method reduced to one verification iteration (with a retry
still available, since `max_retries = 2`). -/
lemma debate_unfold (mg : List ChatMsg → String)
    (loads : String → Except Unit (List (String × PyVal)))
    (searchFn ragFn : String → String) (ag : DebateAgentState) (topic : String)
    (oppView : Option String) (useTools : Bool) (feedback : Option String)
    (debHist : Option (List RoundRecord)) (structHist : Option String) :
    debate mg loads searchFn ragFn ag topic oppView useTools feedback debHist
        structHist =
      ((verifyIteration mg loads topic
          (verifyPromptOf ag.stancePro topic
            (if ag.stancePro then proStance else conStance)
            ((baseGenerate mg ag.base
              (debatePromptOf ag topic oppView feedback debHist structHist
                (if ag.stancePro then proStance else conStance))
              (debateContextOf searchFn ragFn ag topic useTools
                (if ag.stancePro then proStance else conStance))).1) debHist)
          true
          ((baseGenerate mg ag.base
            (debatePromptOf ag topic oppView feedback debHist structHist
              (if ag.stancePro then proStance else conStance))
            (debateContextOf searchFn ragFn ag topic useTools
              (if ag.stancePro then proStance else conStance))).2)
          ((baseGenerate mg ag.base
            (debatePromptOf ag topic oppView feedback debHist structHist
              (if ag.stancePro then proStance else conStance))
            (debateContextOf searchFn ragFn ag topic useTools
              (if ag.stancePro then proStance else conStance))).1)).1,
       { ag with base := (verifyIteration mg loads topic
          (verifyPromptOf ag.stancePro topic
            (if ag.stancePro then proStance else conStance)
            ((baseGenerate mg ag.base
              (debatePromptOf ag topic oppView feedback debHist structHist
                (if ag.stancePro then proStance else conStance))
              (debateContextOf searchFn ragFn ag topic useTools
                (if ag.stancePro then proStance else conStance))).1) debHist)
          true
          ((baseGenerate mg ag.base
            (debatePromptOf ag topic oppView feedback debHist structHist
              (if ag.stancePro then proStance else conStance))
            (debateContextOf searchFn ragFn ag topic useTools
              (if ag.stancePro then proStance else conStance))).2)
          ((baseGenerate mg ag.base
            (debatePromptOf ag topic oppView feedback debHist structHist
              (if ag.stancePro then proStance else conStance))
            (debateContextOf searchFn ragFn ag topic useTools
              (if ag.stancePro then proStance else conStance))).1)).2 }) := rfl

/-- C2: every utterance produced via `DebateAgent.debate` is re-verified for
stance consistency by exactly one further oracle call before being returned
(even though `max_retries` is 2), and the returned text is always the
regex-cleaned `_clean_response` of either the original response or a single
regenerated one.  The exhibited history shapes show the verification prompt
exactly once per call. -/
theorem debate_verify_once (mg : List ChatMsg → String)
    (loads : String → Except Unit (List (String × PyVal)))
    (searchFn ragFn : String → String) (ag : DebateAgentState) (topic : String)
    (oppView : Option String) (useTools : Bool) (feedback : Option String)
    (debHist : Option (List RoundRecord)) (structHist : Option String)
    (cfg : StanceCfg) (hcfg : cfg = if ag.stancePro then proStance else conStance)
    (d : String × DebateAgentState)
    (hd : d = debate mg loads searchFn ragFn ag topic oppView useTools feedback
      debHist structHist) :
    ∃ response verification,
      response = mg (generateMessages ag.base
        (debatePromptOf ag topic oppView feedback debHist structHist cfg)
        (debateContextOf searchFn ragFn ag topic useTools cfg)) ∧
      verification = mg (generateMessages
        (baseGenerate mg ag.base
          (debatePromptOf ag topic oppView feedback debHist structHist cfg)
          (debateContextOf searchFn ragFn ag topic useTools cfg)).2
        (verifyPromptOf ag.stancePro topic cfg response debHist) "") ∧
      ((d.2.base.history = ag.base.history ++
          [⟨"user", debatePromptOf ag topic oppView feedback debHist structHist cfg⟩,
           ⟨"assistant", response⟩,
           ⟨"user", verifyPromptOf ag.stancePro topic cfg response debHist⟩,
           ⟨"assistant", verification⟩] ∧
        d.1 = cleanResponse response) ∨
       (∃ fixPrompt regenerated,
        regenerated = mg (generateMessages
          (baseGenerate mg
            (baseGenerate mg ag.base
              (debatePromptOf ag topic oppView feedback debHist structHist cfg)
              (debateContextOf searchFn ragFn ag topic useTools cfg)).2
            (verifyPromptOf ag.stancePro topic cfg response debHist) "").2
          fixPrompt "") ∧
        d.2.base.history = ag.base.history ++
          [⟨"user", debatePromptOf ag topic oppView feedback debHist structHist cfg⟩,
           ⟨"assistant", response⟩,
           ⟨"user", verifyPromptOf ag.stancePro topic cfg response debHist⟩,
           ⟨"assistant", verification⟩,
           ⟨"user", fixPrompt⟩,
           ⟨"assistant", regenerated⟩] ∧
        d.1 = cleanResponse regenerated)) := by
  subst hcfg
  subst hd
  rw [debate_unfold]
  rcases verifyIteration_outcome mg loads topic
      (verifyPromptOf ag.stancePro topic
        (if ag.stancePro then proStance else conStance)
        ((baseGenerate mg ag.base
          (debatePromptOf ag topic oppView feedback debHist structHist
            (if ag.stancePro then proStance else conStance))
          (debateContextOf searchFn ragFn ag topic useTools
            (if ag.stancePro then proStance else conStance))).1) debHist)
      true
      ((baseGenerate mg ag.base
        (debatePromptOf ag topic oppView feedback debHist structHist
          (if ag.stancePro then proStance else conStance))
        (debateContextOf searchFn ragFn ag topic useTools
          (if ag.stancePro then proStance else conStance))).2)
      ((baseGenerate mg ag.base
        (debatePromptOf ag topic oppView feedback debHist structHist
          (if ag.stancePro then proStance else conStance))
        (debateContextOf searchFn ragFn ag topic useTools
          (if ag.stancePro then proStance else conStance))).1)
    with hout | ⟨fp, hout⟩
  · refine ⟨_, _, rfl, rfl, Or.inl ⟨?_, ?_⟩⟩
    · rw [hout]
      show (baseGenerate mg (baseGenerate mg ag.base _ _).2 _ "").2.history = _
      simp [baseGenerate, generateMessages]
    · rw [hout]
      rfl
  · refine ⟨_, _, rfl, rfl, Or.inr ⟨fp, _, rfl, ?_, ?_⟩⟩
    · rw [hout]
      show (baseGenerate mg (baseGenerate mg (baseGenerate mg ag.base _ _).2 _ "").2
          fp "").2.history = _
      simp [baseGenerate, generateMessages]
    · rw [hout]
      rfl

/-- Witness for C2 with concrete oracles: the debate output is the cleaned
response of the generated utterance (in both the kept and the regenerated
case the constant oracle produces the same utterance). -/
theorem debate_verify_once_witness :
    (debate (fun _ => "我方立场明确。") (fun _ => .error ()) (fun _ => "")
      (fun _ => "") ⟨⟨"sys", []⟩, true, false, false⟩ "题" none false none
      none none).1 = cleanResponse "我方立场明确。" := by
  obtain ⟨resp, ver, hresp, hver, hcase⟩ :=
    debate_verify_once (fun _ => "我方立场明确。") (fun _ => .error ())
      (fun _ => "") (fun _ => "") ⟨⟨"sys", []⟩, true, false, false⟩ "题" none
      false none none none proStance rfl _ rfl
  have hr : resp = "我方立场明确。" := hresp
  rcases hcase with ⟨_, hres⟩ | ⟨fp, regen, hregen, _, hres⟩
  · rw [hres, hr]
  · have hr2 : regen = "我方立场明确。" := hregen
    rw [hres, hr2]

/-- C6 (amended): when interpreting the consistency-check reply fails (the
`json.loads` exception caught by the bare `except`), the recovery returns the
regex-cleaned response — `_clean_response` applied to the current response —
and no exception propagates out of the verification step. -/
theorem verify_exception_recovery (mg : List ChatMsg → String)
    (loads : String → Except Unit (List (String × PyVal)))
    (stancePro : Bool) (topic : String) (cfg : StanceCfg) (st : AgentState)
    (response : String) (debHist : Option (List RoundRecord)) (snippet : String)
    (hsnip : reSearchMatch jsonSnippetPat
      (baseGenerate mg st
        (verifyPromptOf stancePro topic cfg response debHist) "").1 = some snippet)
    (herr : loads snippet = .error ()) :
    verifyAndFixConsistency mg loads stancePro topic cfg st response debHist 2 =
      (cleanResponse response,
       (baseGenerate mg st
         (verifyPromptOf stancePro topic cfg response debHist) "").2) := by
  show verifyIteration mg loads topic
      (verifyPromptOf stancePro topic cfg response debHist) true st response = _
  dsimp only [verifyIteration]
  rw [hsnip]
  dsimp only
  rw [herr]

/-- Counterexample to C6 as stated: on a JSON parse failure the caller does
not receive the raw response string — the returned text is the regex-cleaned
response, which differs from the raw one here. -/
theorem verify_exception_counterexample :
    (verifyAndFixConsistency c6ModelGen c6Loads true "题" proStance ⟨"", []⟩
        " 你好 " none 2).1 ≠ " 你好 " ∧
    (verifyAndFixConsistency c6ModelGen c6Loads true "题" proStance ⟨"", []⟩
        " 你好 " none 2).1 = cleanResponse " 你好 " := by
  constructor
  · decide
  · decide

/-- Witness for the amended C6 at the counterexample input. -/
theorem verify_exception_recovery_witness :
    verifyAndFixConsistency c6ModelGen c6Loads true "题" proStance ⟨"", []⟩
        " 你好 " none 2 =
      (cleanResponse " 你好 ",
       (baseGenerate c6ModelGen ⟨"", []⟩
         (verifyPromptOf true "题" proStance " 你好 " none) "").2) :=
  verify_exception_recovery c6ModelGen c6Loads true "题" proStance ⟨"", []⟩
    " 你好 " none ((⟨[lbraceC]⟩ : String) ++ "y" ++ (⟨[rbraceC]⟩ : String))
    (by decide) rfl

/-- Witness for C3: a reply scoring 85 yields consensus score `17/20`. -/
theorem judge_checkConsensus_witness :
    ((checkConsensus (fun _ => "一致性: 是\n评分: 85\n理由: 好") ⟨"", []⟩ "甲" "乙").1).2.1 =
      17 / 20 := by
  have h := judge_checkConsensus_spec (fun _ => "一致性: 是\n评分: 85\n理由: 好")
    ⟨"", []⟩ "甲" "乙" "一致性: 是\n评分: 85\n理由: 好" rfl
  have h85 : pyFloatOfDigits ((": 85" : String).data.filter
      fun c => c.isDigit || c == '.') = some 85 := by
    rw [show ((": 85" : String).data.filter fun c => c.isDigit || c == '.') =
        ['8', '5'] from by decide]
    simpa using pyFloatOfDigits_allDigits ['8', '5'] 85 (by decide) (by decide)
      (by decide)
  have hv := h.2.2.2.1 ": 85\n理由: 好" ": 85" 85 (by rfl) (by rfl) h85 (by rfl)
  have hfin : min (1 : ℚ) (max 0 (85 / 100)) = 17 / 20 := by norm_num
  rw [h.1]
  show consensusScoreOf "一致性: 是\n评分: 85\n理由: 好" = 17 / 20
  rw [hv, hfin]

/-! ## C1 and C4: the `run_debate` round loop -/

/-- `consensusChecksOf` distributes over append. -/
lemma consensusChecksOf_append (l1 l2 : List DEvent) :
    consensusChecksOf (l1 ++ l2) = consensusChecksOf l1 ++ consensusChecksOf l2 := by
  induction l1 with
  | nil => rfl
  | cons e t ih => cases e <;> simp [consensusChecksOf, ih]

/-- `aSpeaksCount` distributes over append. -/
lemma aSpeaksCount_append (l1 l2 : List DEvent) :
    aSpeaksCount (l1 ++ l2) = aSpeaksCount l1 + aSpeaksCount l2 := by
  induction l1 with
  | nil => simp [aSpeaksCount]
  | cons e t ih => cases e <;> simp [aSpeaksCount, ih] <;> omega

/-- Dropping the head of a list with a nonempty tail keeps its last element. -/
lemma getLast?_cons_of_ne {α : Type} (a : α) (l : List α) (h : l ≠ []) :
    (a :: l).getLast? = l.getLast? := by
  cases l with
  | nil => exact absurd rfl h
  | cons b t => simp [List.getLast?_cons_cons]

/-- Invariant of the round loop: the history and trace grow by matched
per-round segments; at most `fuel` rounds run, at least one when fuel
remains; consensus checks happen exactly at the rounds the code checks; the
loop leaves rounds unexhausted exactly after a passing check beyond round 1;
all non-final checks scored below the threshold. -/
lemma runDebateLoop_spec {σa σb τ : Type} (O : Oracles σa σb τ) (topic : String)
    (maxRounds : ℕ) (useTools earlyStop : Bool) (θ : ℚ) :
    ∀ (fuel roundNum : ℕ) (sa : σa) (sb : σb) (sj : τ)
      (vA vB lE : Option String) (hist : List RoundRecord) (trace : List DEvent),
    ∃ Δh Δt,
      (runDebateLoop O topic maxRounds useTools earlyStop θ fuel roundNum sa sb sj
        vA vB lE hist trace).2.1 = hist ++ Δh ∧
      (runDebateLoop O topic maxRounds useTools earlyStop θ fuel roundNum sa sb sj
        vA vB lE hist trace).2.2 = trace ++ Δt ∧
      Δh.length ≤ fuel ∧
      (0 < fuel → 0 < Δh.length) ∧
      aSpeaksCount Δt = Δh.length ∧
      TraceMatches roundNum vB Δh Δt ∧
      (earlyStop = false → consensusChecksOf Δt = []) ∧
      (earlyStop = true → (consensusChecksOf Δt).map Prod.fst =
        (List.range' roundNum Δh.length).filter (fun k => decide (2 ≤ k))) ∧
      (Δh.length < fuel → earlyStop = true ∧ 2 ≤ roundNum + Δh.length - 1 ∧
        ∃ s, (consensusChecksOf Δt).getLast? = some (roundNum + Δh.length - 1, s) ∧
          θ ≤ s) ∧
      (∀ p ∈ consensusChecksOf Δt, p.1 < roundNum + Δh.length - 1 → p.2 < θ) := by
  intro fuel
  induction fuel with
  | zero =>
      intro roundNum sa sb sj vA vB lE hist trace
      refine ⟨[], [], by simp [runDebateLoop], by simp [runDebateLoop], le_rfl,
        by omega, rfl, by simp [TraceMatches], fun _ => rfl, fun _ => ?_,
        by omega, by simp [consensusChecksOf]⟩
      simp [consensusChecksOf, List.range']
  | succ fuel ih =>
      intro roundNum sa sb sj vA vB lE hist trace
      simp only [runDebateLoop]
      generalize hra : O.agentA sa topic vB useTools lE
        (if hist.isEmpty = true then none else some hist) = ra
      obtain ⟨sa1, va⟩ := ra
      generalize hrb : O.agentB sb topic (some va) useTools lE
        (if hist.isEmpty = true then none else some hist) = rb
      obtain ⟨sb1, vb⟩ := rb
      generalize hje : O.judgeEval sj topic va vb roundNum (roundNum == maxRounds) = je
      obtain ⟨sj1, ev, guid⟩ := je
      dsimp only
      by_cases hES : (earlyStop && decide (roundNum > 1)) = true
      · rw [if_pos hES]
        generalize hjc : O.judgeConsensus sj1 va vb = jc
        obtain ⟨sj2, hc, score, reason⟩ := jc
        dsimp only
        have hES2 := hES
        simp only [Bool.and_eq_true, decide_eq_true_eq] at hES2
        obtain ⟨hESt, hRN⟩ := hES2
        by_cases hθ : θ ≤ score
        · rw [if_pos hθ]
          refine ⟨[⟨roundNum, va, vb, ev⟩],
            [.aSpeaks roundNum vB va, .bSpeaks roundNum (some va) vb,
             .judged roundNum ev, .recorded roundNum,
             .consensusChecked roundNum score],
            ?_, ?_, ?_, ?_, ?_, ?_, ?_, ?_, ?_, ?_⟩
          · simp
          · simp
          · simp
          · simp
          · simp [aSpeaksCount]
          · refine ⟨rfl, [DEvent.consensusChecked roundNum score], [], ?_,
              Or.inr ⟨score, rfl⟩, by simp [TraceMatches]⟩
            simp [roundSegment]
          · intro hfalse
            rw [hESt] at hfalse
            cases hfalse
          · intro _
            have h2rn : decide (2 ≤ roundNum) = true := by
              simp only [decide_eq_true_eq]
              omega
            simp [consensusChecksOf, List.range', h2rn]
          · intro _
            refine ⟨hESt, ?_, score, by simp [consensusChecksOf], hθ⟩
            simp only [List.length_cons, List.length_nil]
            omega
          · intro p hp hlt
            simp only [consensusChecksOf] at hp
            simp at hp
            simp only [List.length_cons, List.length_nil] at hlt
            rcases hp with ⟨hp1, -⟩
            exfalso
            omega
        · rw [if_neg hθ]
          obtain ⟨Δh', Δt', e1, e2, hlen, hpos, hcount, htm, hnoES, hESmap,
            hstop, hbelow⟩ :=
            ih (roundNum + 1) sa1 sb1 sj2 (some va) (some vb) (some ev)
              (hist ++ [⟨roundNum, va, vb, ev⟩])
              (trace ++ [.aSpeaks roundNum vB va, .bSpeaks roundNum (some va) vb,
                .judged roundNum ev, .recorded roundNum] ++
                [.consensusChecked roundNum score])
          have hchk : consensusChecksOf
              [DEvent.aSpeaks roundNum vB va, .bSpeaks roundNum (some va) vb,
               .judged roundNum ev, .recorded roundNum,
               .consensusChecked roundNum score] = [(roundNum, score)] := rfl
          refine ⟨⟨roundNum, va, vb, ev⟩ :: Δh',
            [DEvent.aSpeaks roundNum vB va, .bSpeaks roundNum (some va) vb,
             .judged roundNum ev, .recorded roundNum,
             .consensusChecked roundNum score] ++ Δt',
            ?_, ?_, ?_, ?_, ?_, ?_, ?_, ?_, ?_, ?_⟩
          · rw [e1]
            simp
          · rw [e2]
            simp
          · simp only [List.length_cons]
            omega
          · intro _
            simp
          · rw [aSpeaksCount_append, hcount]
            simp [aSpeaksCount]
            omega
          · refine ⟨rfl, [DEvent.consensusChecked roundNum score], Δt', ?_,
              Or.inr ⟨score, rfl⟩, htm⟩
            simp [roundSegment]
          · intro hfalse
            rw [hESt] at hfalse
            cases hfalse
          · intro _
            rw [consensusChecksOf_append, hchk]
            have h2rn : 2 ≤ roundNum := by omega
            have hm := hESmap hESt
            simp only [List.length_cons, List.range'_succ, List.filter_cons]
            simp [h2rn, hm]
          · intro hlt
            simp only [List.length_cons] at hlt
            obtain ⟨hT, h2, s, hlast, hs⟩ := hstop (by omega)
            refine ⟨hT, by simp only [List.length_cons]; omega, s, ?_, hs⟩
            rw [consensusChecksOf_append, hchk, List.singleton_append]
            have hne : consensusChecksOf Δt' ≠ [] := by
              intro hnil
              rw [hnil] at hlast
              simp at hlast
            rw [getLast?_cons_of_ne _ _ hne]
            simp only [List.length_cons]
            have harith : roundNum + (Δh'.length + 1) - 1 =
                roundNum + 1 + Δh'.length - 1 := by omega
            rw [harith]
            exact hlast
          · intro p hp hlt
            rw [consensusChecksOf_append, hchk, List.singleton_append] at hp
            simp only [List.length_cons] at hlt
            rcases List.mem_cons.mp hp with heq | hmem
            · subst heq
              exact lt_of_not_ge hθ
            · exact hbelow p hmem (by omega)
      · rw [if_neg hES]
        obtain ⟨Δh', Δt', e1, e2, hlen, hpos, hcount, htm, hnoES, hESmap,
          hstop, hbelow⟩ :=
          ih (roundNum + 1) sa1 sb1 sj1 (some va) (some vb) (some ev)
            (hist ++ [⟨roundNum, va, vb, ev⟩])
            (trace ++ [.aSpeaks roundNum vB va, .bSpeaks roundNum (some va) vb,
              .judged roundNum ev, .recorded roundNum])
        have hz : consensusChecksOf
            [DEvent.aSpeaks roundNum vB va, .bSpeaks roundNum (some va) vb,
             .judged roundNum ev, .recorded roundNum] = [] := rfl
        refine ⟨⟨roundNum, va, vb, ev⟩ :: Δh',
          [DEvent.aSpeaks roundNum vB va, .bSpeaks roundNum (some va) vb,
           .judged roundNum ev, .recorded roundNum] ++ Δt',
          ?_, ?_, ?_, by simp, ?_, ?_, ?_, ?_, ?_, ?_⟩
        · rw [e1]
          simp
        · rw [e2]
          simp
        · simp only [List.length_cons]
          omega
        · rw [aSpeaksCount_append, hcount]
          simp [aSpeaksCount]
          omega
        · refine ⟨rfl, [], Δt', ?_, Or.inl rfl, htm⟩
          simp [roundSegment]
        · intro hF
          rw [consensusChecksOf_append, hz, hnoES hF]
          rfl
        · intro hT
          have hRN : ¬ 1 < roundNum := by
            intro hgt
            apply hES
            rw [hT]
            simp [hgt]
          rw [consensusChecksOf_append, hz, List.nil_append, hESmap hT]
          have h2 : decide (2 ≤ roundNum) = false := by
            simp only [decide_eq_false_iff_not]
            omega
          simp only [List.length_cons]
          rw [List.range'_succ, List.filter_cons, h2]
          simp
        · intro hlt
          simp only [List.length_cons] at hlt
          obtain ⟨hT, h2, s, hlast, hs⟩ := hstop (by omega)
          refine ⟨hT, by simp only [List.length_cons]; omega, s, ?_, hs⟩
          rw [consensusChecksOf_append, hz, List.nil_append]
          simp only [List.length_cons]
          have harith : roundNum + (Δh'.length + 1) - 1 =
              roundNum + 1 + Δh'.length - 1 := by omega
          rw [harith]
          exact hlast
        · intro p hp hlt
          rw [consensusChecksOf_append, hz, List.nil_append] at hp
          simp only [List.length_cons] at hlt
          exact hbelow p hp (by omega)

/-- Record `k` of a matched history carries round number `r + k`. -/
lemma traceMatches_round_numbers :
    ∀ (Δh : List RoundRecord) (r : ℕ) (b : Option String) (Δt : List DEvent),
      TraceMatches r b Δh Δt →
      ∀ k, k < Δh.length → (Δh[k]?).map RoundRecord.round = some (r + k) := by
  intro Δh
  induction Δh with
  | nil =>
      intro r b Δt _ k hk
      simp at hk
  | cons rec hrest ih =>
      intro r b Δt htm k hk
      obtain ⟨hr, checkPart, trest, -, -, htm'⟩ := htm
      cases k with
      | zero =>
          simp [hr]
      | succ k =>
          have := ih (r + 1) (some rec.agent_b) trest htm' k
            (by simp at hk; omega)
          simpa [Nat.add_assoc, Nat.add_comm 1 k] using this

/-- C1: with `max_rounds ≥ 1`, `run_debate` executes between 1 and
`max_rounds` rounds and reports `rounds = len(debate_history)`; no consensus
check happens with `early_stop` off, with it on the checks are exactly at the
executed rounds beyond round 1, the loop ends before exhausting `max_rounds`
exactly when the last check reached the threshold (necessarily at a round
`≥ 2`), and every check before the final round scored below the threshold —
so the debate never stops for consensus after round 1. -/
theorem run_debate_rounds_spec {σa σb τ : Type} (O : Oracles σa σb τ)
    (sa : σa) (sb : σb) (sj : τ) (topic : String) (maxRounds : ℕ)
    (useTools earlyStop : Bool) (θ : ℚ) (res : DebateResult)
    (trace : List DEvent) (h1 : 1 ≤ maxRounds)
    (hrun : runDebate O sa sb sj topic maxRounds useTools earlyStop θ =
      (res, trace)) :
    res.rounds = res.history.length ∧
    res.rounds = aSpeaksCount trace ∧
    1 ≤ res.rounds ∧ res.rounds ≤ maxRounds ∧
    (earlyStop = false → consensusChecksOf trace = []) ∧
    (earlyStop = true → (consensusChecksOf trace).map Prod.fst =
      (List.range' 1 res.rounds).filter (fun k => decide (2 ≤ k))) ∧
    (res.rounds < maxRounds → earlyStop = true ∧ 2 ≤ res.rounds ∧
      ∃ s, (consensusChecksOf trace).getLast? = some (res.rounds, s) ∧
        θ ≤ s) ∧
    (∀ p ∈ consensusChecksOf trace, p.1 < res.rounds → p.2 < θ) := by
  obtain ⟨Δh, Δt, e1, e2, hlen, hpos, hcount, htm, hnoES, hESmap, hstop,
    hbelow⟩ :=
    runDebateLoop_spec O topic maxRounds useTools earlyStop θ maxRounds 1
      sa sb sj none none none [] []
  rw [List.nil_append] at e1 e2
  have hres := congrArg Prod.fst hrun
  have htr := congrArg Prod.snd hrun
  dsimp only [runDebate] at hres htr
  rw [e1] at hres
  rw [e2] at htr
  subst htr
  have hh : res.history = Δh := by rw [← hres]
  have hn : res.rounds = Δh.length := by rw [← hres]
  have harith : 1 + Δh.length - 1 = Δh.length := by omega
  rw [harith] at hstop hbelow
  refine ⟨by rw [hn, hh], by rw [hn, hcount], ?_, ?_, hnoES, ?_, ?_, ?_⟩
  · rw [hn]
    exact hpos (by omega)
  · rw [hn]
    exact hlen
  · intro hT
    rw [hn]
    exact hESmap hT
  · intro hlt
    rw [hn] at hlt ⊢
    exact hstop hlt
  · intro p hp hlt
    rw [hn] at hlt
    exact hbelow p hp hlt

/-- Witness for C1 at the constant oracles with three available rounds. -/
theorem run_debate_rounds_witness :
    1 ≤ 3 ∧
    (runDebate constOracles () () () "题" 3 false true (8 / 10)).1.rounds =
      (runDebate constOracles () () () "题" 3 false true (8 / 10)).1.history.length :=
  ⟨by decide,
   (run_debate_rounds_spec constOracles () () () "题" 3 false true (8 / 10)
      (runDebate constOracles () () () "题" 3 false true (8 / 10)).1
      (runDebate constOracles () () () "题" 3 false true (8 / 10)).2
      (by decide) rfl).1⟩

/-- C4: the trace of `run_debate` decomposes round by round in program
order — A speaks receiving the previous round's B view (`None` in round 1),
then B speaks receiving A's current view, then the judge evaluates, then the
record is appended, and only then is consensus optionally checked for that
round — and record `k` of the returned history carries round number `k + 1`,
so records appear in increasing round order. -/
theorem run_debate_order_spec {σa σb τ : Type} (O : Oracles σa σb τ)
    (sa : σa) (sb : σb) (sj : τ) (topic : String) (maxRounds : ℕ)
    (useTools earlyStop : Bool) (θ : ℚ) (res : DebateResult)
    (trace : List DEvent)
    (hrun : runDebate O sa sb sj topic maxRounds useTools earlyStop θ =
      (res, trace)) :
    TraceMatches 1 none res.history trace ∧
    ∀ k, k < res.history.length →
      (res.history[k]?).map RoundRecord.round = some (k + 1) := by
  obtain ⟨Δh, Δt, e1, e2, -, -, -, htm, -, -, -, -⟩ :=
    runDebateLoop_spec O topic maxRounds useTools earlyStop θ maxRounds 1
      sa sb sj none none none [] []
  rw [List.nil_append] at e1 e2
  have hres := congrArg Prod.fst hrun
  have htr := congrArg Prod.snd hrun
  dsimp only [runDebate] at hres htr
  rw [e1] at hres
  rw [e2] at htr
  subst htr
  have hh : res.history = Δh := by rw [← hres]
  rw [hh]
  refine ⟨htm, ?_⟩
  intro k hk
  have := traceMatches_round_numbers Δh 1 none Δt htm k hk
  simpa [Nat.add_comm 1 k] using this

/-- Witness for C4 at the constant oracles with a single round. -/
theorem run_debate_order_witness :
    TraceMatches 1 none
      (runDebate constOracles () () () "题" 1 false false (8 / 10)).1.history
      (runDebate constOracles () () () "题" 1 false false (8 / 10)).2 :=
  (run_debate_order_spec constOracles () () () "题" 1 false false (8 / 10)
    (runDebate constOracles () () () "题" 1 false false (8 / 10)).1
    (runDebate constOracles () () () "题" 1 false false (8 / 10)).2 rfl).1

end Debate
